import Mathlib

/-!
# SpreadsheetCalculator: a shallow embedding of the cell evaluation engine

The definitions below follow `src/src/Cell.cpp` and
`src/src/SpreadsheetCalculator.cpp` function by function.

* A `std::string` is a `List Char` (`Str`); `push_back` on a vector is `++ [x]`.
* A `std::stack` is a list whose head is the top.
* The spreadsheet `std::map<char, std::vector<std::shared_ptr<Cell>>>` is an
  association list from column letter to the column's cells, in iteration
  order; a `shared_ptr<Cell>` identity is the pair (column letter, 1-based row).
* Undefined behaviour and uncaught exceptions (`top()` on an empty stack,
  `std::stoi` throwing, signed overflow, falling off the end of
  `getCellType`) are the outcome `Res.fault`; recursion depth is bounded by a
  fuel argument and exhausting it is the outcome `Res.timeout`.
-/

namespace Spreadsheet

/-- A `std::string`. -/
abbrev Str := List Char

/-- Outcome of running a piece of the program. -/
inductive Res (α : Type) where
  | ok (a : α)
  | fault
  | timeout
  deriving DecidableEq, Repr

/-- The enumeration `Cell::Type` (Cell.h:16-23). -/
inductive CellType where
  | EMPTY
  | TEXT
  | NUMBER
  | EXPRESSION
  | REFERANCE
  deriving DecidableEq, Repr

/-! ## Error sentinels (Cell.cpp:9-20) -/

def errorFormat : Str := "#UNKNOWN_FORMAT".toList
def errorExpressionEvaluation : Str := "#TEXT?".toList
def errorReferenceCycling : Str := "#CIRCULAR_REF".toList
def errorFormulaEntered : Str := "#WRONG_FORMULA_TYPE".toList

/-- The string literal assigned at Cell.cpp:223. -/
def errorNum : Str := "#ERROR_NUM".toList

/-- Cell.cpp:14-20. -/
def isDataError (cellData : Str) : Bool :=
  cellData == errorFormat
    || cellData == errorExpressionEvaluation
    || cellData == errorReferenceCycling
    || cellData == errorFormulaEntered

/-! ## Classification (Cell.cpp:45-103) -/

/-- The C-locale `std::isprint`: codes 0x20 to 0x7E. -/
def isprint (c : Char) : Bool := decide (32 ≤ c.toNat) && decide (c.toNat ≤ 126)

/-- The C-locale `std::isspace`: space, and the codes 9 to 13. -/
def isspace (c : Char) : Bool :=
  c == ' ' || (decide (9 ≤ c.toNat) && decide (c.toNat ≤ 13))

/-- Cell.cpp:45-48. -/
def isDataEmpty (cellData : Str) : Bool := cellData.isEmpty

/-- Cell.cpp:50-59. -/
def isDataText (cellData : Str) : Bool := cellData.all isprint

/-- The optional `[-+]?` at the head of the number pattern. -/
def dropSign : Str → Str
  | '-' :: r => r
  | '+' :: r => r
  | s => s

/-- Cell.cpp:62-65, a whole-string match of `^[-+]?[0-9]*$`. -/
def isDataNumber (cellData : Str) : Bool := (dropSign cellData).all Char.isDigit

/-- Cell.cpp:67-70, a whole-string match of `([a-zA-Z][1-9][0-9]{0,2})`. -/
def isDataCellReferance : Str → Bool
  | c :: d :: rest =>
      c.isAlpha && (decide (49 ≤ d.toNat) && decide (d.toNat ≤ 57))
        && decide (rest.length ≤ 2) && rest.all Char.isDigit
  | _ => false

/-- The bracket expression of the pattern at Cell.cpp:75 and 82, item by
item: the range `0` to `9`, `+`, the range from `*` to `/` (codes 42 to 47),
`^`, `(`, `)`, `.`, `,` and the space. -/
def simpleExpressionChar (c : Char) : Bool :=
  c.isDigit || c == '+' || (decide (42 ≤ c.toNat) && decide (c.toNat ≤ 47))
    || c == '^' || c == '(' || c == ')' || c == '.' || c == ',' || c == ' '

/-- Cell.cpp:80-83, a whole-string match of `=`, then one or more characters
of the bracket expression. -/
def isDataSimpleExpression : Str → Bool
  | '=' :: rest => !rest.isEmpty && rest.all simpleExpressionChar
  | _ => false

/-- Cell.cpp:72-78. -/
def isDataReferanceExpression : Str → Bool
  | '=' :: rest => !isDataSimpleExpression ('=' :: rest)
  | _ => false

/-- Cell.cpp:86-103. The function has no `return` after the fifth test;
reaching that point is `none`. -/
def getCellType (cellData : Str) : Option CellType :=
  if isDataSimpleExpression cellData then some CellType.EXPRESSION
  else if isDataReferanceExpression cellData then some CellType.REFERANCE
  else if isDataEmpty cellData then some CellType.EMPTY
  else if isDataNumber cellData then some CellType.NUMBER
  else if isDataText cellData then some CellType.TEXT
  else none

/-! ## Cells (Cell.h:47-117) -/

/-- The fields of `ExpressionCell` (Cell.h:108-116). `m_cells` is passed to the
operations instead of being stored; `m_refBackup` holds cell identities. -/
structure ExpressionCell where
  m_value : Str
  m_data : Str
  m_type : CellType
  m_isCalculated : Bool
  m_cellPosition : Char × Nat
  m_tokens : List Str
  m_refBackup : List (Char × Nat)
  deriving DecidableEq, Repr

/-- The four concrete cell classes. `EmptyCell`, `TextCell` and `NumberCell`
are only ever built by `createCell` with their own type tag, so the tag is
not stored. -/
inductive Cell where
  | empty
  | text (m_value : Str)
  | number (m_value : Str)
  | expression (c : ExpressionCell)
  deriving DecidableEq, Repr

/-- The virtual `getType` (Cell.cpp:119, 147, 171, 241). -/
def Cell.getType : Cell → CellType
  | Cell.empty => CellType.EMPTY
  | Cell.text _ => CellType.TEXT
  | Cell.number _ => CellType.NUMBER
  | Cell.expression c => c.m_type

/-- The virtual `getValue` (Cell.cpp:124, 152, 176, 246). -/
def Cell.getValue : Cell → Str
  | Cell.empty => []
  | Cell.text v => v
  | Cell.number v => v
  | Cell.expression c => c.m_value

/-- The constructor `ExpressionCell::ExpressionCell` (Cell.cpp:182-189). -/
def ExpressionCell.create (cellData : Str) (type : CellType) (pos : Char × Nat) :
    ExpressionCell where
  m_value := cellData
  m_data := cellData
  m_type := type
  m_isCalculated := false
  m_cellPosition := pos
  m_tokens := []
  m_refBackup := []

/-- Cell.cpp:25-42. -/
def createCell (cellData : Str) (pos : Char × Nat) : Option Cell :=
  match getCellType cellData with
  | some CellType.EMPTY => some Cell.empty
  | some CellType.NUMBER => some (Cell.number cellData)
  | some CellType.TEXT => some (Cell.text cellData)
  | some CellType.EXPRESSION =>
      some (Cell.expression (ExpressionCell.create cellData CellType.EXPRESSION pos))
  | some CellType.REFERANCE =>
      some (Cell.expression (ExpressionCell.create cellData CellType.REFERANCE pos))
  | none => none

/-- The map `Cell::mSpreadsheet` (Cell.h:14). -/
abbrev mSpreadsheet := List (Char × List Cell)

/-- `TextCell::calculate` (Cell.cpp:138-145) on `m_value`; the marker is the
apostrophe, code 39. -/
def TextCell.calculate (m_value : Str) : Str :=
  match m_value with
  | c :: rest => if c == Char.ofNat 39 then rest else errorFormat
  | [] => errorFormat

/-- `NumberCell::calculate` (Cell.cpp:166-169) on `m_value`:
`erase(0, find_first_not_of('0'))`. -/
def NumberCell.calculate (m_value : Str) : Str :=
  m_value.dropWhile (fun c => c == '0')

/-! ## Integers and their text (`std::stoi`, `operator<<`) -/

/-- Least value of the 32-bit `int`. -/
def INT_MIN : Int := -2147483648

/-- Greatest value of the 32-bit `int`. -/
def INT_MAX : Int := 2147483647

/-- The value fits the 32-bit `int`. -/
def inIntRange (v : Int) : Bool := decide (INT_MIN ≤ v) && decide (v ≤ INT_MAX)

/-- Value of a run of decimal digits, most significant first. -/
def digitsValue (ds : List Char) : Nat :=
  ds.foldl (fun acc c => 10 * acc + (c.toNat - 48)) 0

/-- The call `std::stoi(s)`: skip leading white space, read an optional sign and
the longest run of digits, ignore what follows. It throws when there is no
digit (`invalid_argument`) or the value does not fit an `int`
(`out_of_range`); both are `none`. -/
def stoi (s : Str) : Option Int :=
  let s1 := s.dropWhile isspace
  let neg : Bool := match s1 with
    | '-' :: _ => true
    | _ => false
  let ds := (dropSign s1).takeWhile Char.isDigit
  if ds.isEmpty then none
  else
    let v : Int := if neg then -(digitsValue ds : Int) else (digitsValue ds : Int)
    if inIntRange v then some v else none

/-- The character of a decimal digit. -/
def digitChar : Nat → Char
  | 0 => '0'
  | 1 => '1'
  | 2 => '2'
  | 3 => '3'
  | 4 => '4'
  | 5 => '5'
  | 6 => '6'
  | 7 => '7'
  | 8 => '8'
  | _ => '9'

/-- Decimal digits of `n` put in front of `acc`; `fuel` bounds the number of
digits. -/
def natDigits : Nat → Nat → List Char → List Char
  | 0, _, acc => acc
  | fuel + 1, n, acc =>
      if n < 10 then digitChar n :: acc
      else natDigits fuel (n / 10) (digitChar (n % 10) :: acc)

/-- Decimal text of a natural number. -/
def natToString (n : Nat) : Str := natDigits (n + 1) n []

/-- The text `s << result` writes for an `int` (Cell.cpp:233-235). -/
def intToString (v : Int) : Str :=
  if v < 0 then '-' :: natToString v.natAbs else natToString v.natAbs

/-! ## Tokens (Cell.cpp:251-259, 333-362) -/

/-- Cell.cpp:251-254. -/
def isParenthesis (token : Str) : Bool := token == ['('] || token == [')']

/-- Cell.cpp:256-259. -/
def isOperator (token : Str) : Bool :=
  token == ['+'] || token == ['-'] || token == ['*'] || token == ['/']

/-- State of the character loop of `simpleExpressionTokenize` when it ends:
either it returned early on a rejected operand (Cell.cpp:343-347) or it ran
to the end with the pending operand `str`. -/
inductive TokenizeLoop where
  | rejected (tokens : List Str)
  | finished (tokens : List Str) (str : Str)
  deriving DecidableEq, Repr

/-- The loop of Cell.cpp:338-357 over the characters of `data`; `isExpr` is
`m_type == EXPRESSION`. -/
def tokenizeLoop (isExpr : Bool) : List Char → List Str → Str → TokenizeLoop
  | [], tokens, str => TokenizeLoop.finished tokens str
  | i :: data, tokens, str =>
      if isOperator [i] || isParenthesis [i] then
        if !str.isEmpty then
          if isExpr && !isDataNumber str then TokenizeLoop.rejected tokens
          else tokenizeLoop isExpr data ((tokens ++ [str]) ++ [[i]]) []
        else tokenizeLoop isExpr data (tokens ++ [[i]]) []
      else if [i] != [' '] then tokenizeLoop isExpr data tokens (str ++ [i])
      else tokenizeLoop isExpr data tokens str

/-- Cell.cpp:333-362. `data` is a reference parameter: the result carries the
cell, the string `data` now holds (its first character erased) and the
returned tokens. -/
def simpleExpressionTokenize (this : ExpressionCell) (data : Str) :
    ExpressionCell × Str × List Str :=
  let data1 := data.drop 1
  match tokenizeLoop (this.m_type == CellType.EXPRESSION) data1 [] [] with
  | TokenizeLoop.rejected tokens =>
      ({ this with m_value := errorExpressionEvaluation, m_isCalculated := true },
        data1, tokens)
  | TokenizeLoop.finished tokens str =>
      if !str.isEmpty && str != [' '] then (this, data1, tokens ++ [str])
      else (this, data1, tokens)

/-! ## Parenthesis matching and reordering (Cell.cpp:261-321) -/

/-- The inner loop of Cell.cpp:269-278: move the operators on top of the stack
to `m_tokens`. Returns the stack and `m_tokens`. -/
def popOperators : List Str → List Str → List Str × List Str
  | [], out => ([], out)
  | operator2 :: stack, out =>
      if isOperator operator2 then popOperators stack (out ++ [operator2])
      else (operator2 :: stack, out)

/-- Cell.cpp:291-303 on a non-empty stack: move entries to `m_tokens` until
an open parenthesis is on top, then drop it. The flag is false when the stack
ran out first. -/
def popUntilOpen : List Str → List Str → Bool × List Str × List Str
  | [], out => (false, [], out)
  | topToken :: stack, out =>
      if topToken != ['('] then popUntilOpen stack (out ++ [topToken])
      else (true, stack, out)

/-- The final loop of Cell.cpp:310-320. -/
def drainStack : List Str → List Str → Bool × List Str
  | [], out => (true, out)
  | stackToken :: stack, out =>
      if isParenthesis stackToken then (false, out)
      else drainStack stack (out ++ [stackToken])

/-- The token loop of Cell.cpp:265-308 followed by the final loop; arguments
are the remaining input, the stack and `m_tokens`. Returns the result of
`isMatchParentheses` and `m_tokens`. -/
def matchLoop : List Str → List Str → List Str → Bool × List Str
  | [], stack, out => drainStack stack out
  | token :: rest, stack, out =>
      if isOperator token then
        matchLoop rest (token :: (popOperators stack out).1) (popOperators stack out).2
      else if token == ['('] then matchLoop rest (token :: stack) out
      else if token == [')'] then
        match stack with
        | [] => (false, out)
        | _ :: _ =>
            match popUntilOpen stack out with
            | (true, stack1, out1) => matchLoop rest stack1 out1
            | (false, _, out1) => (false, out1)
      else matchLoop rest stack (out ++ [token])

/-- Cell.cpp:261-321. -/
def isMatchParentheses (this : ExpressionCell) (inputTokens : List Str) :
    ExpressionCell × Bool :=
  match matchLoop inputTokens [] this.m_tokens with
  | (true, out) => ({ this with m_tokens := out }, true)
  | (false, out) =>
      ({ this with m_tokens := out, m_value := errorFormulaEntered, m_isCalculated := true },
        false)

/-! ## The evaluation pass (Cell.cpp:208-238) -/

/-- The conditional chain of Cell.cpp:226-229. -/
def binaryResult (token : Str) (d1 d2 : Int) : Int :=
  if token == ['+'] then d1 + d2
  else if token == ['-'] then d1 - d2
  else if token == ['*'] then d1 * d2
  else Int.tdiv d1 d2

/-- Cell.cpp:231. -/
def unaryResult (token : Str) (d2 : Int) : Int :=
  if token == ['-'] then d2 * -1 else d2

/-- One round of the loop of Cell.cpp:209-237 for `token` with the value stack
`st`. `ok none` is the early return of Cell.cpp:222-225, `ok (some st1)` the
stack after the round. A result outside the `int` range is signed overflow. -/
def evalStep (token : Str) (st : List Str) : Res (Option (List Str)) :=
  if !isOperator token then Res.ok (some (token :: st))
  else
    match st with
    | [] => Res.fault
    | val2 :: st1 =>
        match stoi val2 with
        | none => Res.fault
        | some d2 =>
            match st1 with
            | val1 :: st2 =>
                match stoi val1 with
                | none => Res.fault
                | some d1 =>
                    if d2 == 0 && token == ['/'] then Res.ok none
                    else if inIntRange (binaryResult token d1 d2) then
                      Res.ok (some (intToString (binaryResult token d1 d2) :: st2))
                    else Res.fault
            | [] =>
                if inIntRange (unaryResult token d2) then
                  Res.ok (some (intToString (unaryResult token d2) :: []))
                else Res.fault

/-- The loop of Cell.cpp:209-237 over `m_tokens` with the value stack `st`:
`ok none` when it returned early, `ok (some st)` with the stack at its end. -/
def evalLoop : List Str → List Str → Res (Option (List Str))
  | [], st => Res.ok (some st)
  | token :: rest, st =>
      match evalStep token st with
      | Res.ok (some st1) => evalLoop rest st1
      | Res.ok none => Res.ok none
      | Res.fault => Res.fault
      | Res.timeout => Res.timeout

/-- The part of `ExpressionCell::calculate` after the tokens are computed
(Cell.cpp:199-238). -/
def finishCalculate (this : ExpressionCell) (tokens : List Str) : Res ExpressionCell :=
  if this.m_isCalculated then Res.ok this
  else
    match isMatchParentheses { this with m_isCalculated := true } tokens with
    | (this1, false) => Res.ok this1
    | (this1, true) =>
        match evalLoop this1.m_tokens [] with
        | Res.ok none => Res.ok { this1 with m_value := errorNum }
        | Res.ok (some (top :: _)) => Res.ok { this1 with m_value := top }
        | Res.ok (some []) => Res.fault
        | Res.fault => Res.fault
        | Res.timeout => Res.timeout

/-- `ExpressionCell::calculate` (Cell.cpp:194-239) for a cell whose type is
`EXPRESSION`: the tokens come from `simpleExpressionTokenize(m_data)`. -/
def calculateSimple (this : ExpressionCell) : Res ExpressionCell :=
  match simpleExpressionTokenize this this.m_data with
  | (this1, data1, tokens) => finishCalculate { this1 with m_data := data1 } tokens

/-! ## Reference resolution (Cell.cpp:328-331, 364-479) -/

/-- The cell in column `l` at the 1-based `row`, when there is one. -/
def getCell (cells : mSpreadsheet) (l : Char) (row : Nat) : Option Cell :=
  match cells.lookup l with
  | none => none
  | some column => if row = 0 then none else column[row - 1]?

/-- Store `c` as the cell in column `l` at `row`. -/
def setCell (cells : mSpreadsheet) (l : Char) (row : Nat) (c : Cell) : mSpreadsheet :=
  cells.map (fun p => if p.1 == l then (p.1, p.2.set (row - 1) c) else p)

/-- The assignments `m_value = v; m_isCalculated = true`. -/
def ExpressionCell.setError (this : ExpressionCell) (v : Str) : ExpressionCell :=
  { this with m_value := v, m_isCalculated := true }

/-- The object `getCell(l, row)` points to (Cell.cpp:328-331) while the cell
at `self` is being calculated: the fields of that cell are held in `this`,
every other cell is read from `cells`. -/
def targetCell (cells : mSpreadsheet) (self : Char × Nat) (this : ExpressionCell)
    (l : Char) (row : Nat) : Option Cell :=
  if (l, row) = self then some (Cell.expression this) else getCell cells l row

/-- What one round of the loop of Cell.cpp:383-476 leads to. -/
inductive RefStep where
  /-- go on with the next token -/
  | next (cells : mSpreadsheet) (this : ExpressionCell) (resultTokens : List Str)
  /-- `break`: leave the loop -/
  | stop (cells : mSpreadsheet) (this : ExpressionCell) (resultTokens : List Str)
  /-- the `return` of Cell.cpp:455 -/
  | ret (this : ExpressionCell) (resultTokens : List Str)
  /-- the recursive call of Cell.cpp:461 on the copy `str` -/
  | call (this : ExpressionCell) (str : Str)
  /-- undefined behaviour or an uncaught exception -/
  | fault
  deriving DecidableEq, Repr

/-- The branch of Cell.cpp:430-440: the target has type `EXPRESSION` and is
calculated on the spot. -/
def refStepExpression (cells : mSpreadsheet) (self : Char × Nat) (this : ExpressionCell)
    (resultTokens : List Str) (l : Char) (row : Nat) (tmpCell : Cell) : RefStep :=
  match tmpCell with
  | Cell.expression target =>
      match calculateSimple target with
      | Res.ok target1 =>
          if (l, row) = self then
            if isDataError target1.m_value then
              RefStep.stop cells (target1.setError target1.m_value) [target1.m_value]
            else RefStep.next cells target1 (resultTokens ++ [target1.m_value])
          else if isDataError target1.m_value then
            RefStep.stop (setCell cells l row (Cell.expression target1))
              (this.setError target1.m_value) [target1.m_value]
          else
            RefStep.next (setCell cells l row (Cell.expression target1)) this
              (resultTokens ++ [target1.m_value])
      | _ => RefStep.fault
  | _ => RefStep.fault

/-- One round of the loop of Cell.cpp:383-476 for the token `elem`; `data` is
the string the parameter `data` holds at that point. -/
def refStep (cells : mSpreadsheet) (self : Char × Nat) (this : ExpressionCell)
    (data : Str) (resultTokens : List Str) (elem : Str) : RefStep :=
  if !isDataCellReferance elem && !isOperator elem && !isParenthesis elem
      && !isDataNumber elem then
    RefStep.stop cells (this.setError errorExpressionEvaluation) [errorExpressionEvaluation]
  else
    match cells.lookup (elem.headD (Char.ofNat 0)) with
    | some column =>
        match stoi (elem.drop 1) with
        | none => RefStep.fault
        | some row =>
            if row < 0 ∨ (column.length : Int) < row then
              RefStep.stop cells (this.setError errorExpressionEvaluation)
                [errorExpressionEvaluation]
            else
              match targetCell cells self this (elem.headD (Char.ofNat 0)) row.toNat with
              | none => RefStep.fault
              | some tmpCell =>
                  if isDataError tmpCell.getValue then
                    RefStep.stop cells (this.setError tmpCell.getValue) [data]
                  else if tmpCell.getType = CellType.NUMBER then
                    RefStep.next cells this (resultTokens ++ [tmpCell.getValue])
                  else if tmpCell.getType = CellType.TEXT then
                    RefStep.stop cells (this.setError errorExpressionEvaluation)
                      [errorExpressionEvaluation]
                  else if tmpCell.getType = CellType.EXPRESSION then
                    refStepExpression cells self this resultTokens
                      (elem.headD (Char.ofNat 0)) row.toNat tmpCell
                  else if tmpCell.getType = CellType.EMPTY then
                    RefStep.next cells this (resultTokens ++ [['0']])
                  else if (elem.headD (Char.ofNat 0), row.toNat) ∈ this.m_refBackup then
                    RefStep.ret
                      { this with
                        m_value := errorReferenceCycling
                        m_isCalculated := true
                        m_refBackup := [] }
                      [errorReferenceCycling]
                  else
                    RefStep.call
                      { this with
                        m_refBackup :=
                          (elem.headD (Char.ofNat 0), row.toNat) :: this.m_refBackup }
                      tmpCell.getValue
    | none =>
        if isDataNumber elem || isOperator elem || isParenthesis elem then
          RefStep.next cells this (resultTokens ++ [elem])
        else
          RefStep.stop cells (this.setError errorExpressionEvaluation)
            [errorExpressionEvaluation]

/-- The loop of Cell.cpp:383-476 and the two statements after it; `call` runs
the recursive call of Cell.cpp:461, whose result replaces `resultTokens`
(Cell.cpp:462). -/
def refLoop (call : mSpreadsheet → ExpressionCell → Str →
      Res (mSpreadsheet × ExpressionCell × List Str))
    (self : Char × Nat) (data : Str) :
    List Str → mSpreadsheet → ExpressionCell → List Str →
      Res (mSpreadsheet × ExpressionCell × List Str)
  | [], cells, this, resultTokens =>
      Res.ok (cells, { this with m_refBackup := [] }, resultTokens)
  | elem :: tokens, cells, this, resultTokens =>
      match refStep cells self this data resultTokens elem with
      | RefStep.next cells1 this1 resultTokens1 =>
          refLoop call self data tokens cells1 this1 resultTokens1
      | RefStep.stop cells1 this1 resultTokens1 =>
          Res.ok (cells1, { this1 with m_refBackup := [] }, resultTokens1)
      | RefStep.ret this1 resultTokens1 => Res.ok (cells, this1, resultTokens1)
      | RefStep.call this1 str =>
          match call cells this1 str with
          | Res.ok (cells2, this2, tmp) => refLoop call self data tokens cells2 this2 tmp
          | Res.fault => Res.fault
          | Res.timeout => Res.timeout
      | RefStep.fault => Res.fault

/-- The body of `referanceExpressionTokenize` (Cell.cpp:364-479) with its
recursive call abstracted as `call`. The result carries the spreadsheet, the
cell, the string the reference parameter `data` holds on return and the
returned tokens. The parameter `pos` is never read and is left out. -/
def referanceExpressionTokenizeBody
    (call : mSpreadsheet → ExpressionCell → Str →
      Res (mSpreadsheet × ExpressionCell × List Str))
    (self : Char × Nat) (cells : mSpreadsheet) (this : ExpressionCell) (data : Str) :
    Res (mSpreadsheet × ExpressionCell × Str × List Str) :=
  if isDataNumber data then
    Res.ok (cells, { this with m_refBackup := [] }, data, [data])
  else if isDataError data then
    Res.ok (cells, { this with m_value := data, m_isCalculated := true, m_refBackup := [] },
      data, [data])
  else
    match simpleExpressionTokenize this (data.map Char.toUpper) with
    | (this1, data1, tokens) =>
        match refLoop call self data1 tokens cells this1 [] with
        | Res.ok (cells2, this2, resultTokens) => Res.ok (cells2, this2, data1, resultTokens)
        | Res.fault => Res.fault
        | Res.timeout => Res.timeout

/-- Forget the string component of a result of `referanceExpressionTokenize`:
the recursive call works on a local copy. -/
def dropData : Res (mSpreadsheet × ExpressionCell × Str × List Str) →
    Res (mSpreadsheet × ExpressionCell × List Str)
  | Res.ok (cells, this, _, resultTokens) => Res.ok (cells, this, resultTokens)
  | Res.fault => Res.fault
  | Res.timeout => Res.timeout

/-- `ExpressionCell::referanceExpressionTokenize` (Cell.cpp:364-479) for the
cell at `self`, with at most `fuel` nested calls. -/
def referanceExpressionTokenize :
    Nat → Char × Nat → mSpreadsheet → ExpressionCell → Str →
      Res (mSpreadsheet × ExpressionCell × Str × List Str)
  | 0, _, _, _, _ => Res.timeout
  | fuel + 1, self, cells, this, data =>
      referanceExpressionTokenizeBody
        (fun cells1 this1 str =>
          dropData (referanceExpressionTokenize fuel self cells1 this1 str))
        self cells this data

/-! ## Evaluation of a cell and of the sheet -/

/-- `ExpressionCell::calculate` (Cell.cpp:194-239) for the cell `this` stored at
`self`; the result is the spreadsheet with the cell written back. -/
def ExpressionCell.calculate (fuel : Nat) (cells : mSpreadsheet) (self : Char × Nat)
    (this : ExpressionCell) : Res mSpreadsheet :=
  if this.m_type ≠ CellType.EXPRESSION then
    match referanceExpressionTokenize fuel self cells this this.m_data with
    | Res.ok (cells1, this1, data1, tokens) =>
        match finishCalculate { this1 with m_data := data1 } tokens with
        | Res.ok this2 => Res.ok (setCell cells1 self.1 self.2 (Cell.expression this2))
        | Res.fault => Res.fault
        | Res.timeout => Res.timeout
    | Res.fault => Res.fault
    | Res.timeout => Res.timeout
  else
    match calculateSimple this with
    | Res.ok this2 => Res.ok (setCell cells self.1 self.2 (Cell.expression this2))
    | Res.fault => Res.fault
    | Res.timeout => Res.timeout

/-- The virtual call `cell->calculate()` on the cell in column `l` at `row`
(Cell.cpp:114, 138, 166, 194). -/
def Cell.calculate (fuel : Nat) (cells : mSpreadsheet) (l : Char) (row : Nat) :
    Res mSpreadsheet :=
  match getCell cells l row with
  | none => Res.fault
  | some Cell.empty => Res.ok cells
  | some (Cell.text v) => Res.ok (setCell cells l row (Cell.text (TextCell.calculate v)))
  | some (Cell.number v) => Res.ok (setCell cells l row (Cell.number (NumberCell.calculate v)))
  | some (Cell.expression this) => ExpressionCell.calculate fuel cells (l, row) this

/-- `getValue()` of the cell in column `l` at `row`. -/
def getValue (cells : mSpreadsheet) (l : Char) (row : Nat) : Option Str :=
  (getCell cells l row).map Cell.getValue

/-- The order in which `SpreadsheetCalculator::calculate`
(SpreadsheetCalculator.cpp:74-90) visits the cells: column by column, each
column from its first row down. -/
def visitOrder (cells : mSpreadsheet) : List (Char × Nat) :=
  cells.flatMap (fun p => (List.range p.2.length).map (fun j => (p.1, j + 1)))

/-- Calculate the listed cells one after the other. -/
def calculateAll (fuel : Nat) : List (Char × Nat) → mSpreadsheet → Res mSpreadsheet
  | [], cells => Res.ok cells
  | p :: ps, cells =>
      match Cell.calculate fuel cells p.1 p.2 with
      | Res.ok cells1 => calculateAll fuel ps cells1
      | Res.fault => Res.fault
      | Res.timeout => Res.timeout

/-- The calls of `calculate` made by `SpreadsheetCalculator::calculate`
(SpreadsheetCalculator.cpp:74-90). -/
def SpreadsheetCalculator.calculate (fuel : Nat) (cells : mSpreadsheet) : Res mSpreadsheet :=
  calculateAll fuel (visitOrder cells) cells

/-- One column of the spreadsheet `readDataFromInputFile` builds
(SpreadsheetCalculator.cpp:63-65): the cells of column `l` created from the
raw strings, with rows numbered from `j`. -/
def buildColumn (l : Char) : Nat → List Str → Option (List Cell)
  | _, [] => some []
  | j, cellData :: more =>
      match createCell cellData (l, j), buildColumn l (j + 1) more with
      | some c, some cs => some (c :: cs)
      | _, _ => none

/-- The spreadsheet `readDataFromInputFile` builds from the columns of raw
strings (SpreadsheetCalculator.cpp:57-71): the first column gets the letter
`l`, each further column the next character; rows are numbered from 1. -/
def buildSheet : Char → List (List Str) → Option mSpreadsheet
  | _, [] => some []
  | l, column :: more =>
      match buildColumn l 1 column, buildSheet (Char.ofNat (l.toNat + 1)) more with
      | some c, some cs => some ((l, c) :: cs)
      | _, _ => none

/-! ## Definitions used to state the properties -/

/-- The characters the classification rule for Expression lists:
`0-9 + - * / ^ ( ) . ,` and the space. -/
def arithmeticChar (c : Char) : Bool :=
  c.isDigit || c ∈ ['+', '-', '*', '/', '^', '(', ')', '.', ',', ' ']

/-- An optional `+` or `-` sign followed by zero or more digits. -/
def SignedDigits (s : Str) : Prop :=
  ∃ sign ds : Str, s = sign ++ ds ∧ (sign = [] ∨ sign = ['+'] ∨ sign = ['-'])
    ∧ ∀ c ∈ ds, c.isDigit = true

/-- Number of occurrences of the token `t` in a token sequence. -/
def countToken (t : Str) : List Str → Nat
  | [] => 0
  | x :: xs => (if x = t then 1 else 0) + countToken t xs

/-- The parentheses of a token sequence are unbalanced: some initial segment
holds more `)` than `(`, or the totals differ. -/
def Unbalanced (ts : List Str) : Prop :=
  (∃ k, countToken ['('] (ts.take k) < countToken [')'] (ts.take k))
    ∨ countToken ['('] ts ≠ countToken [')'] ts

/-- Unbalanced when `d` parentheses are already open. -/
def UnbalancedFrom (d : Nat) (ts : List Str) : Prop :=
  (∃ k, d + countToken ['('] (ts.take k) < countToken [')'] (ts.take k))
    ∨ d + countToken ['('] ts ≠ countToken [')'] ts

/-- Every stack entry is an operator or an open parenthesis. -/
def StackOK (stack : List Str) : Prop :=
  ∀ t ∈ stack, isOperator t = true ∨ t = ['(']

/-- A non-empty string of decimal digits. -/
def IsDigits (n : Str) : Prop := n ≠ [] ∧ ∀ c ∈ n, c.isDigit = true

/-- One of the four operator characters. -/
def IsOp (c : Char) : Prop := c = '+' ∨ c = '-' ∨ c = '*' ∨ c = '/'

/-- The text `n0 op1 n1 ... opk nk`. -/
def formulaBody (n0 : Str) (rest : List (Char × Str)) : Str :=
  n0 ++ rest.flatMap (fun p => p.1 :: p.2)

/-- The arithmetic meaning of an operator character; `/` truncates toward
zero. -/
def applyOp (op : Char) (a b : Int) : Int :=
  if op = '+' then a + b
  else if op = '-' then a - b
  else if op = '*' then a * b
  else Int.tdiv a b

/-- The strict left fold `(...((acc op1 n1) op2 n2)... opk nk)`. -/
def foldValue (acc : Int) (rest : List (Char × Str)) : Int :=
  rest.foldl (fun a p => applyOp p.1 a (digitsValue p.2)) acc

/-- No division by zero, and every literal and intermediate result of the
left fold lies in the 32-bit signed range. -/
def FoldSafe : Int → List (Char × Str) → Prop
  | _, [] => True
  | acc, p :: rest =>
      inIntRange (digitsValue p.2) = true
        ∧ ¬ (p.1 = '/' ∧ digitsValue p.2 = 0)
        ∧ inIntRange (applyOp p.1 acc (digitsValue p.2)) = true
        ∧ FoldSafe (applyOp p.1 acc (digitsValue p.2)) rest

/-- The tokens of `n0 op1 n1 ... opk nk` in source order. -/
def infixTokens (n0 : Str) (rest : List (Char × Str)) : List Str :=
  n0 :: rest.flatMap (fun p => [[p.1], p.2])

/-- The reordered tokens that follow the first operand, with the operators
in `stack` still to be emitted. -/
def postfixTail (stack : List Str) : List (Char × Str) → List Str
  | [] => stack
  | p :: rest => stack ++ p.2 :: postfixTail [[p.1]] rest

/-- The list `m_tokens` the evaluation pass of `ExpressionCell::calculate`
(Cell.cpp:209) runs over for a cell of type `EXPRESSION`, when control gets
there: no operand was rejected and the parentheses matched. -/
def evaluationTokens (this : ExpressionCell) : Option (List Str) :=
  match simpleExpressionTokenize this this.m_data with
  | (this1, data1, tokens) =>
      if this1.m_isCalculated then none
      else
        match isMatchParentheses { this1 with m_data := data1, m_isCalculated := true } tokens with
        | (this2, true) => some this2.m_tokens
        | (_, false) => none

/-- The one-row sheet `=B1+A1 | =C1 | 5`. -/
def loopSheet : mSpreadsheet :=
  [('A', [Cell.expression (ExpressionCell.create "=B1+A1".toList CellType.REFERANCE ('A', 1))]),
   ('B', [Cell.expression (ExpressionCell.create "=C1".toList CellType.REFERANCE ('B', 1))]),
   ('C', [Cell.number "5".toList])]

/-- The cell A1 of `loopSheet` with the given content of `m_refBackup`. -/
def loopCell (refBackup : List (Char × Nat)) : ExpressionCell :=
  { ExpressionCell.create "=B1+A1".toList CellType.REFERANCE ('A', 1) with
    m_refBackup := refBackup }

/-- The text `nm` is a reference to the cell at `q`: it has the cell-reference
shape and, once put in upper case, its letter is the column `q.1` and its
digits read as the row `q.2`. -/
def RefersTo (nm : Str) (q : Char × Nat) : Prop :=
  isDataCellReferance nm = true
    ∧ (nm.map Char.toUpper).headD (Char.ofNat 0) = q.1
    ∧ stoi ((nm.map Char.toUpper).drop 1) = some (q.2 : Int)

/-- The cells entered in `m_refBackup` after `j` nested calls, when the cell at
`p s` of a cycle of length `n` is calculated. -/
def cycleVisited (p : Nat → Char × Nat) (n s : Nat) : Nat → List (Char × Nat)
  | 0 => []
  | j + 1 => p ((s + j + 1) % n) :: cycleVisited p n s j

/-- A character that is no operator, no parenthesis and no space. -/
def PlainChar (c : Char) : Prop :=
  isOperator [c] = false ∧ isParenthesis [c] = false ∧ ([c] != [' ']) = true

/-- The one-row sheet `=B1 | =A1`. -/
def pairSheet : mSpreadsheet :=
  [('A', [Cell.expression (ExpressionCell.create "=B1".toList CellType.REFERANCE ('A', 1))]),
   ('B', [Cell.expression (ExpressionCell.create "=A1".toList CellType.REFERANCE ('B', 1))])]

/-- Places of the two cells of `pairSheet`. -/
def pairPlace (i : Nat) : Char × Nat := if i = 0 then ('A', 1) else ('B', 1)

/-- The reference each cell of `pairSheet` holds. -/
def pairName (i : Nat) : Str := if i = 0 then "B1".toList else "A1".toList

/-- The text `hello` behind the literal-text marker (the apostrophe). -/
def markedHello : Str := Char.ofNat 39 :: "hello".toList

/-- The token is a single operator or parenthesis character. -/
def isDelimiterToken (t : Str) : Bool := isOperator t || isParenthesis t

/-- An operand token: non-empty and made of characters that are no operator,
no parenthesis and no space. -/
def IsOperandToken (t : Str) : Prop := t ≠ [] ∧ ∀ c ∈ t, PlainChar c

/-- The character loop of `simpleExpressionTokenize` on `data` took the early
return of Cell.cpp:343-347: an operand was rejected. -/
def operandRejected (this : ExpressionCell) (data : Str) : Bool :=
  match tokenizeLoop (this.m_type == CellType.EXPRESSION) (data.drop 1) [] [] with
  | TokenizeLoop.rejected _ => true
  | TokenizeLoop.finished _ _ => false

/-- Of two neighbouring tokens at least one is an operator or a
parenthesis. -/
def DelimiterBetween (a b : Str) : Prop :=
  isDelimiterToken a = true ∨ isDelimiterToken b = true

/-- The recursive call of Cell.cpp:461 as seen by the outermost call of
`referanceExpressionTokenize` when that call has the budget `fuel + 1`. -/
def nestedCall (fuel : Nat) (self : Char × Nat) :
    mSpreadsheet → ExpressionCell → Str → Res (mSpreadsheet × ExpressionCell × List Str) :=
  fun cells this str => dropData (referanceExpressionTokenize fuel self cells this str)

/-- Run the loop of Cell.cpp:383-476 over the tokens `front` as long as no
round leaves the loop; the result is the state in which the token after
`front` is met, `none` when a round of `front` left the loop or did not
return. -/
def refAdvance (call : mSpreadsheet → ExpressionCell → Str →
      Res (mSpreadsheet × ExpressionCell × List Str))
    (self : Char × Nat) (data : Str) :
    List Str → mSpreadsheet → ExpressionCell → List Str →
      Option (mSpreadsheet × ExpressionCell × List Str)
  | [], cells, this, resultTokens => some (cells, this, resultTokens)
  | elem :: tokens, cells, this, resultTokens =>
      match refStep cells self this data resultTokens elem with
      | RefStep.next cells1 this1 resultTokens1 =>
          refAdvance call self data tokens cells1 this1 resultTokens1
      | RefStep.call this1 str =>
          match call cells this1 str with
          | Res.ok (cells2, this2, tmp) => refAdvance call self data tokens cells2 this2 tmp
          | _ => none
      | _ => none

/-- While the fresh Reference cell with the text `raw`, stored at `self`, is
calculated with the budget `fuel + 1`, the loop over the cell's own tokens
meets the token `u` in the state `(cells1, this1, res)`: no earlier token of
the formula made the loop stop. -/
def ReachesToken (fuel : Nat) (cells : mSpreadsheet) (self : Char × Nat) (raw u : Str)
    (cells1 : mSpreadsheet) (this1 : ExpressionCell) (res : List Str) : Prop :=
  ∃ front back,
    (simpleExpressionTokenize (ExpressionCell.create raw CellType.REFERANCE self)
        (raw.map Char.toUpper)).2.2 = front ++ u :: back
    ∧ refAdvance (nestedCall fuel self) self ((raw.map Char.toUpper).drop 1) front cells
        (ExpressionCell.create raw CellType.REFERANCE self) [] = some (cells1, this1, res)

/-- The two spreadsheets have cells at the same places. -/
def SameShape (a b : mSpreadsheet) : Prop :=
  ∀ l row, (getCell a l row).isSome = (getCell b l row).isSome

/-- The spreadsheet a round of the resolver loop hands on has cells at the
same places as `cells`. -/
def StepShape (cells : mSpreadsheet) : RefStep → Prop
  | RefStep.next c _ _ => SameShape c cells
  | RefStep.stop c _ _ => SameShape c cells
  | _ => True

/-- The token names no cell of the spreadsheet or is no token at all: it has
the cell-reference shape and its column is absent or its row number exceeds
the column's row count, or it is neither an operator, a parenthesis, a
Number-shaped literal nor of cell-reference shape. -/
def InvalidToken (cells : mSpreadsheet) (u : Str) : Prop :=
  (isDataCellReferance u = true
      ∧ (cells.lookup (u.headD (Char.ofNat 0)) = none
        ∨ ∃ column, cells.lookup (u.headD (Char.ofNat 0)) = some column
            ∧ column.length < digitsValue (u.drop 1)))
    ∨ (isDataCellReferance u = false ∧ isOperator u = false ∧ isParenthesis u = false
        ∧ isDataNumber u = false)

/-- The one-row sheet `abc | =1+A1`. -/
def textSheet : mSpreadsheet :=
  [('A', [Cell.text "abc".toList]),
   ('B', [Cell.expression (ExpressionCell.create "=1+A1".toList CellType.REFERANCE ('B', 1))])]

/-- The one-row sheet `5 | =A1+A7`. -/
def shortSheet : mSpreadsheet :=
  [('A', [Cell.number "5".toList]),
   ('B', [Cell.expression (ExpressionCell.create "=A1+A7".toList CellType.REFERANCE ('B', 1))])]

/-! ## Classification -/

theorem char_eq_of_toNat (c : Char) (n : Nat) (h : c.toNat = n) : c = Char.ofNat n := by
  rw [← h, Char.ofNat_toNat]

theorem simpleExpressionChar_eq (c : Char) : simpleExpressionChar c = arithmeticChar c := by
  by_cases h : 42 ≤ c.toNat ∧ c.toNat ≤ 47
  · obtain ⟨h1, h2⟩ := h
    have : c.toNat = 42 ∨ c.toNat = 43 ∨ c.toNat = 44 ∨ c.toNat = 45 ∨ c.toNat = 46
        ∨ c.toNat = 47 := by omega
    rcases this with h | h | h | h | h | h <;>
      (rw [char_eq_of_toNat c _ h]; decide)
  · have hne : ∀ n, 42 ≤ n → n ≤ 47 → c ≠ Char.ofNat n := by
      intro n h1 h2 hc
      apply h
      rw [hc]
      interval_cases n <;> decide
    have h1 := hne 42 (by norm_num) (by norm_num)
    have h2 := hne 43 (by norm_num) (by norm_num)
    have h3 := hne 44 (by norm_num) (by norm_num)
    have h4 := hne 45 (by norm_num) (by norm_num)
    have h5 := hne 46 (by norm_num) (by norm_num)
    have h6 := hne 47 (by norm_num) (by norm_num)
    simp only [simpleExpressionChar, arithmeticChar]
    have hd : (decide (42 ≤ c.toNat) && decide (c.toNat ≤ 47)) = false := by
      simpa using h
    rw [hd]
    have e1 : Char.ofNat 42 = '*' := by decide
    have e2 : Char.ofNat 43 = '+' := by decide
    have e3 : Char.ofNat 44 = ',' := by decide
    have e4 : Char.ofNat 45 = '-' := by decide
    have e5 : Char.ofNat 46 = '.' := by decide
    have e6 : Char.ofNat 47 = '/' := by decide
    rw [e1] at h1; rw [e2] at h2; rw [e3] at h3; rw [e4] at h4; rw [e5] at h5; rw [e6] at h6
    have b2 : (c == '+') = false := beq_eq_false_iff_ne.mpr h2
    have b3 : (c == ',') = false := beq_eq_false_iff_ne.mpr h3
    have b5 : (c == '.') = false := beq_eq_false_iff_ne.mpr h5
    simp [List.mem_cons, h1, h2, h3, h4, h5, h6, b2, b3, b5]
    simp only [Bool.or_assoc]
    rfl

theorem dropSign_all_digits (s : Str) (h : ∀ c ∈ s, c.isDigit = true) :
    ∀ c ∈ dropSign s, c.isDigit = true := by
  unfold dropSign
  split
  · intro c hc; exact h c (List.mem_cons_of_mem _ hc)
  · intro c hc; exact h c (List.mem_cons_of_mem _ hc)
  · exact h

theorem isDataNumber_iff (s : Str) : isDataNumber s = true ↔ SignedDigits s := by
  unfold isDataNumber SignedDigits
  rw [List.all_eq_true]
  constructor
  · intro h
    unfold dropSign at h
    split at h
    · exact ⟨['-'], _, rfl, Or.inr (Or.inr rfl), h⟩
    · exact ⟨['+'], _, rfl, Or.inr (Or.inl rfl), h⟩
    · exact ⟨[], _, rfl, Or.inl rfl, h⟩
  · rintro ⟨sign, ds, rfl, hs | hs | hs, hd⟩
    · subst hs; exact dropSign_all_digits _ hd
    · subst hs; exact hd
    · subst hs; exact hd

theorem getCellType_eq_cons (rest : Str) :
    getCellType ('=' :: rest) =
      if rest ≠ [] ∧ ∀ c ∈ rest, arithmeticChar c = true then some CellType.EXPRESSION
      else some CellType.REFERANCE := by
  have hall : rest.all simpleExpressionChar = true ↔ ∀ c ∈ rest, arithmeticChar c = true := by
    rw [List.all_eq_true]
    constructor
    · intro h c hc; rw [← simpleExpressionChar_eq]; exact h c hc
    · intro h c hc; rw [simpleExpressionChar_eq]; exact h c hc
  by_cases h : rest ≠ [] ∧ ∀ c ∈ rest, arithmeticChar c = true
  · have h1 : isDataSimpleExpression ('=' :: rest) = true := by
      obtain ⟨hne, ha⟩ := h
      simp only [isDataSimpleExpression, Bool.and_eq_true, Bool.not_eq_true',
        List.isEmpty_eq_false]
      exact ⟨hne, hall.mpr ha⟩
    simp only [getCellType, h1, if_true, if_pos h]
  · have h1 : isDataSimpleExpression ('=' :: rest) = false := by
      rw [← Bool.not_eq_true]
      intro hs
      apply h
      simp only [isDataSimpleExpression, Bool.and_eq_true, Bool.not_eq_true',
        List.isEmpty_eq_false] at hs
      exact ⟨hs.1, hall.mp hs.2⟩
    simp [getCellType, h1, isDataReferanceExpression, if_neg h]

theorem getCellType_number_or_text (c : Char) (rest : Str) (hc : c ≠ '=')
    (h : ∀ x ∈ c :: rest, isprint x = true) :
    ∃ t, getCellType (c :: rest) = some t ∧
      (t = CellType.EMPTY ↔ c :: rest = []) ∧
      (t = CellType.NUMBER ↔ c :: rest ≠ [] ∧ SignedDigits (c :: rest)) ∧
      (t = CellType.TEXT ↔ c :: rest ≠ [] ∧ ¬ SignedDigits (c :: rest)) := by
  have h1 : isDataSimpleExpression (c :: rest) = false := by
    unfold isDataSimpleExpression
    split
    · rename_i heq; injection heq with h1 h2; exact absurd h1 hc
    · rfl
  have h2 : isDataReferanceExpression (c :: rest) = false := by
    unfold isDataReferanceExpression
    split
    · rename_i heq; injection heq with h1 h2; exact absurd h1 hc
    · rfl
  have h3 : isDataText (c :: rest) = true := by
    unfold isDataText; rw [List.all_eq_true]; exact h
  by_cases hn : isDataNumber (c :: rest) = true
  · refine ⟨CellType.NUMBER, ?_, ?_⟩
    · simp [getCellType, h1, h2, isDataEmpty, hn]
    · have := (isDataNumber_iff _).mp hn
      simp [this]
  · refine ⟨CellType.TEXT, ?_, ?_⟩
    · simp [getCellType, h1, h2, isDataEmpty, hn, h3]
    · have : ¬ SignedDigits (c :: rest) := fun hs => hn ((isDataNumber_iff _).mpr hs)
      simp [this]

/-- C7, as amended: for a string that starts with `=`, `getCellType` is
Expression when at least one character follows the `=` and every following
character is drawn from `0-9 + - * / ^ ( ) . ,` and the space; it is
Reference otherwise, which includes the string `=` alone. -/
theorem getCellType_after_equals (rest : Str) :
    getCellType ('=' :: rest) =
      if rest ≠ [] ∧ ∀ c ∈ rest, arithmeticChar c = true then some CellType.EXPRESSION
      else some CellType.REFERANCE :=
  getCellType_eq_cons rest

/-- C7, counterexample: nothing follows the `=` of the string `=`, so every
following character is in the arithmetic set, yet it is classified Reference
and not Expression. -/
theorem getCellType_equals_alone :
    (∀ c ∈ ([] : Str), arithmeticChar c = true)
      ∧ getCellType ['='] = some CellType.REFERANCE
      ∧ getCellType ['='] ≠ some CellType.EXPRESSION := by
  decide

/-- C8: on a string of printable ASCII characters `getCellType` returns one of
the five variants; when the string does not start with `=` the result is Empty
iff the string is empty, Number iff it is non-empty and is an optional sign
followed by zero or more digits, and Text otherwise. The strings `+` and `-`
are Number. -/
theorem getCellType_printable (s : Str) (h : ∀ c ∈ s, isprint c = true) :
    (∃ t, getCellType s = some t ∧
      (s.head? ≠ some '=' →
        (t = CellType.EMPTY ↔ s = []) ∧
        (t = CellType.NUMBER ↔ s ≠ [] ∧ SignedDigits s) ∧
        (t = CellType.TEXT ↔ s ≠ [] ∧ ¬ SignedDigits s)))
    ∧ getCellType ['+'] = some CellType.NUMBER
    ∧ getCellType ['-'] = some CellType.NUMBER := by
  refine ⟨?_, by decide, by decide⟩
  match s, h with
  | [], _ =>
      refine ⟨CellType.EMPTY, by decide, fun _ => ?_⟩
      simp
  | c :: rest, h =>
      by_cases hc : c = '='
      · subst hc
        rw [getCellType_eq_cons]
        split
        · exact ⟨_, rfl, fun hne => absurd rfl hne⟩
        · exact ⟨_, rfl, fun hne => absurd rfl hne⟩
      · obtain ⟨t, ht, hrest⟩ := getCellType_number_or_text c rest hc h
        exact ⟨t, ht, fun _ => hrest⟩

theorem getCellType_printable_witness :
    (∃ t, getCellType "-12".toList = some t ∧
      ("-12".toList.head? ≠ some '=' →
        (t = CellType.EMPTY ↔ "-12".toList = []) ∧
        (t = CellType.NUMBER ↔ "-12".toList ≠ [] ∧ SignedDigits "-12".toList) ∧
        (t = CellType.TEXT ↔ "-12".toList ≠ [] ∧ ¬ SignedDigits "-12".toList)))
    ∧ getCellType ['+'] = some CellType.NUMBER
    ∧ getCellType ['-'] = some CellType.NUMBER :=
  getCellType_printable "-12".toList (by decide)

/-! ## Parenthesis matching -/

theorem isOperator_ne_open (t : Str) (h : isOperator t = true) : t ≠ ['('] := by
  intro ht; subst ht; revert h; decide

theorem isOperator_ne_close (t : Str) (h : isOperator t = true) : t ≠ [')'] := by
  intro ht; subst ht; revert h; decide

theorem unbalancedFrom_nil (d : Nat) : UnbalancedFrom d [] ↔ d ≠ 0 := by
  simp [UnbalancedFrom, countToken]

theorem unbalancedFrom_cons (d : Nat) (t : Str) (ts : List Str) :
    UnbalancedFrom d (t :: ts) ↔
      (∃ k, d + countToken ['('] (t :: ts.take k) < countToken [')'] (t :: ts.take k))
        ∨ d + countToken ['('] (t :: ts) ≠ countToken [')'] (t :: ts) := by
  unfold UnbalancedFrom
  constructor
  · rintro (⟨k, hk⟩ | h)
    · cases k with
      | zero => simp [countToken] at hk
      | succ k => exact Or.inl ⟨k, by simpa using hk⟩
    · exact Or.inr h
  · rintro (⟨k, hk⟩ | h)
    · exact Or.inl ⟨k + 1, by simpa using hk⟩
    · exact Or.inr h

theorem unbalancedFrom_other (d : Nat) (t : Str) (ts : List Str)
    (h1 : t ≠ ['(']) (h2 : t ≠ [')']) :
    UnbalancedFrom d (t :: ts) ↔ UnbalancedFrom d ts := by
  rw [unbalancedFrom_cons]
  simp only [countToken, if_neg h1, if_neg h2, Nat.zero_add]
  rfl

theorem unbalancedFrom_open (d : Nat) (ts : List Str) :
    UnbalancedFrom d (['('] :: ts) ↔ UnbalancedFrom (d + 1) ts := by
  rw [unbalancedFrom_cons]
  have hne : (['('] : Str) ≠ [')'] := by decide
  simp only [countToken, if_neg hne, if_true, Nat.zero_add]
  unfold UnbalancedFrom
  constructor
  · rintro (⟨k, hk⟩ | h)
    · exact Or.inl ⟨k, by omega⟩
    · exact Or.inr (by omega)
  · rintro (⟨k, hk⟩ | h)
    · exact Or.inl ⟨k, by omega⟩
    · exact Or.inr (by omega)

theorem unbalancedFrom_close_zero (ts : List Str) : UnbalancedFrom 0 ([')'] :: ts) := by
  rw [unbalancedFrom_cons]
  refine Or.inl ⟨0, ?_⟩
  have hne : ([')'] : Str) ≠ ['('] := by decide
  simp [countToken, hne]

theorem unbalancedFrom_close_succ (d : Nat) (ts : List Str) :
    UnbalancedFrom (d + 1) ([')'] :: ts) ↔ UnbalancedFrom d ts := by
  rw [unbalancedFrom_cons]
  have hne : ([')'] : Str) ≠ ['('] := by decide
  simp only [countToken, if_neg hne, if_true, Nat.zero_add]
  unfold UnbalancedFrom
  constructor
  · rintro (⟨k, hk⟩ | h)
    · exact Or.inl ⟨k, by omega⟩
    · exact Or.inr (by omega)
  · rintro (⟨k, hk⟩ | h)
    · exact Or.inl ⟨k, by omega⟩
    · exact Or.inr (by omega)

theorem popOperators_spec (stack out : List Str) (h : StackOK stack) :
    StackOK (popOperators stack out).1
      ∧ countToken ['('] (popOperators stack out).1 = countToken ['('] stack := by
  induction stack generalizing out with
  | nil => exact ⟨h, rfl⟩
  | cons t stack ih =>
      unfold popOperators
      by_cases ht : isOperator t = true
      · rw [if_pos ht]
        have hs : StackOK stack := fun x hx => h x (List.mem_cons_of_mem _ hx)
        obtain ⟨h1, h2⟩ := ih (out ++ [t]) hs
        refine ⟨h1, ?_⟩
        rw [h2]
        simp [countToken, isOperator_ne_open t ht]
      · rw [if_neg ht]
        exact ⟨h, rfl⟩

theorem popUntilOpen_spec (stack out : List Str) (h : StackOK stack) :
    (countToken ['('] stack = 0 → (popUntilOpen stack out).1 = false)
      ∧ (0 < countToken ['('] stack →
          (popUntilOpen stack out).1 = true ∧ StackOK (popUntilOpen stack out).2.1
            ∧ countToken ['('] (popUntilOpen stack out).2.1 + 1 = countToken ['('] stack) := by
  induction stack generalizing out with
  | nil => exact ⟨fun _ => rfl, fun h0 => absurd h0 (by simp [countToken])⟩
  | cons t stack ih =>
      have hs : StackOK stack := fun x hx => h x (List.mem_cons_of_mem _ hx)
      unfold popUntilOpen
      by_cases ht : t = ['(']
      · subst ht
        simp only [bne_self_eq_false, Bool.false_eq_true, if_false]
        refine ⟨fun h0 => ?_, fun _ => ⟨trivial, hs, ?_⟩⟩
        · simp [countToken] at h0
        · simp [countToken]; omega
      · have hb : (t != ['(']) = true := by simpa using ht
        rw [if_pos hb]
        obtain ⟨h1, h2⟩ := ih (out ++ [t]) hs
        simp only [countToken, if_neg ht, Nat.zero_add]
        exact ⟨h1, h2⟩

theorem drainStack_spec (stack out : List Str) (h : StackOK stack) :
    (drainStack stack out).1 = false ↔ countToken ['('] stack ≠ 0 := by
  induction stack generalizing out with
  | nil => simp [drainStack, countToken]
  | cons t stack ih =>
      have hs : StackOK stack := fun x hx => h x (List.mem_cons_of_mem _ hx)
      unfold drainStack
      rcases h t (List.mem_cons_self _ _) with ht | ht
      · have hp : isParenthesis t = false := by
          unfold isParenthesis
          have h1 := isOperator_ne_open t ht
          have h2 := isOperator_ne_close t ht
          simp [h1, h2]
        simp only [hp, Bool.false_eq_true, if_false, countToken,
          if_neg (isOperator_ne_open t ht), Nat.zero_add]
        exact ih _ hs
      · subst ht
        have hp : isParenthesis ['('] = true := by decide
        simp [hp, countToken]

theorem matchLoop_spec (ts stack out : List Str) (h : StackOK stack) :
    (matchLoop ts stack out).1 = false ↔ UnbalancedFrom (countToken ['('] stack) ts := by
  induction ts generalizing stack out with
  | nil =>
      rw [unbalancedFrom_nil]
      exact drainStack_spec stack out h
  | cons t ts ih =>
      unfold matchLoop
      by_cases hop : isOperator t = true
      · rw [if_pos hop]
        obtain ⟨h1, h2⟩ := popOperators_spec stack out h
        have hs : StackOK (t :: (popOperators stack out).1) := by
          intro x hx
          rcases List.mem_cons.mp hx with hx | hx
          · exact Or.inl (hx ▸ hop)
          · exact h1 x hx
        rw [ih _ _ hs, unbalancedFrom_other _ _ _ (isOperator_ne_open t hop)
          (isOperator_ne_close t hop)]
        simp only [countToken, if_neg (isOperator_ne_open t hop), Nat.zero_add, h2]
      · rw [if_neg hop]
        by_cases ho : t = ['(']
        · subst ho
          have hs : StackOK (['('] :: stack) := by
            intro x hx
            rcases List.mem_cons.mp hx with hx | hx
            · exact Or.inr hx
            · exact h x hx
          simp only [beq_self_eq_true, if_true]
          rw [ih _ _ hs, unbalancedFrom_open]
          simp only [countToken, if_true]
          rw [Nat.add_comm]
        · have hob : (t == ['(']) = false := by simpa using ho
          rw [hob]
          simp only [Bool.false_eq_true, if_false]
          by_cases hc : t = [')']
          · subst hc
            simp only [beq_self_eq_true, if_true]
            cases stack with
            | nil =>
                simp only [countToken]
                exact ⟨fun _ => unbalancedFrom_close_zero ts, fun _ => trivial⟩
            | cons s stack =>
                simp only []
                obtain ⟨h1, h2⟩ := popUntilOpen_spec (s :: stack) out h
                rcases Nat.eq_zero_or_pos (countToken ['('] (s :: stack)) with h0 | h0
                · have hf := h1 h0
                  rw [h0]
                  constructor
                  · intro _; exact unbalancedFrom_close_zero ts
                  · intro _
                    rcases hp : popUntilOpen (s :: stack) out with ⟨b, s1, o1⟩
                    rw [hp] at hf
                    simp only at hf
                    subst hf
                    rfl
                · obtain ⟨ht, hok, hcnt⟩ := h2 h0
                  rcases hp : popUntilOpen (s :: stack) out with ⟨b, s1, o1⟩
                  rw [hp] at ht hok hcnt
                  simp only at ht hok hcnt
                  subst ht
                  simp only []
                  rw [ih _ _ hok, ← hcnt, unbalancedFrom_close_succ]
          · have hcb : (t == [')']) = false := by simpa using hc
            rw [hcb]
            simp only [Bool.false_eq_true, if_false]
            rw [ih _ _ h, unbalancedFrom_other _ _ _ ho hc]

theorem unbalancedFrom_zero (ts : List Str) : UnbalancedFrom 0 ts ↔ Unbalanced ts := by
  simp [UnbalancedFrom, Unbalanced]

/-! ## Left-to-right arithmetic -/

theorem digitChar_isDigit (d : Nat) : (digitChar d).isDigit = true := by
  unfold digitChar
  split <;> decide

theorem digitChar_toNat (d : Nat) (h : d < 10) : (digitChar d).toNat - 48 = d := by
  interval_cases d <;> decide

theorem digitsValue_append_single (ds : List Char) (c : Char) :
    digitsValue (ds ++ [c]) = 10 * digitsValue ds + (c.toNat - 48) := by
  simp [digitsValue, List.foldl_append]

theorem natDigits_acc (fuel n : Nat) (acc : List Char) :
    natDigits fuel n acc = natDigits fuel n [] ++ acc := by
  induction fuel generalizing n acc with
  | zero => simp [natDigits]
  | succ fuel ih =>
      unfold natDigits
      split
      · simp
      · rw [ih (n / 10) (digitChar (n % 10) :: acc), ih (n / 10) [digitChar (n % 10)]]
        simp

theorem natDigits_spec (fuel n : Nat) (h : n < fuel) :
    IsDigits (natDigits fuel n []) ∧ digitsValue (natDigits fuel n []) = n := by
  induction fuel generalizing n with
  | zero => omega
  | succ fuel ih =>
      unfold natDigits
      split
      · rename_i hlt
        refine ⟨⟨by simp, ?_⟩, ?_⟩
        · intro c hc
          rw [List.mem_singleton] at hc
          rw [hc]; exact digitChar_isDigit n
        · simp only [digitsValue, List.foldl, Nat.mul_zero, Nat.zero_add]
          exact digitChar_toNat n hlt
      · rename_i hge
        have hlt : n / 10 < fuel := by omega
        obtain ⟨⟨h1, h2⟩, h3⟩ := ih (n / 10) hlt
        rw [natDigits_acc]
        refine ⟨⟨by simp, ?_⟩, ?_⟩
        · intro c hc
          rcases List.mem_append.mp hc with hc | hc
          · exact h2 c hc
          · rw [List.mem_singleton] at hc
            rw [hc]; exact digitChar_isDigit _
        · rw [digitsValue_append_single, h3, digitChar_toNat _ (Nat.mod_lt _ (by norm_num))]
          omega

theorem natToString_spec (n : Nat) :
    IsDigits (natToString n) ∧ digitsValue (natToString n) = n :=
  natDigits_spec (n + 1) n (Nat.lt_succ_self n)

theorem isDigit_not_isspace (c : Char) (h : c.isDigit = true) : isspace c = false := by
  have h1 : 48 ≤ c.toNat := by
    simp only [Char.isDigit, Bool.and_eq_true, decide_eq_true_eq] at h
    exact h.1
  have hne : c ≠ ' ' := by
    intro hc; subst hc; revert h1; decide
  have hb : (c == ' ') = false := beq_eq_false_iff_ne.mpr hne
  simp only [isspace, hb, Bool.false_or, Bool.and_eq_false_imp, decide_eq_true_eq,
    decide_eq_false_iff_not]
  intro _; omega

theorem takeWhile_all (p : Char → Bool) (l : List Char) (h : ∀ c ∈ l, p c = true) :
    l.takeWhile p = l := by
  induction l with
  | nil => rfl
  | cons a l ih =>
      rw [List.takeWhile_cons, h a (List.mem_cons_self _ _)]
      simp only [if_true]
      rw [ih (fun c hc => h c (List.mem_cons_of_mem _ hc))]

theorem isDigit_ne_minus (c : Char) (h : c.isDigit = true) : c ≠ '-' := by
  intro hc; subst hc; revert h; decide

theorem isDigit_ne_plus (c : Char) (h : c.isDigit = true) : c ≠ '+' := by
  intro hc; subst hc; revert h; decide

theorem dropSign_digits (n : Str) (h : IsDigits n) : dropSign n = n := by
  obtain ⟨hne, hd⟩ := h
  cases n with
  | nil => exact absurd rfl hne
  | cons c r =>
      have hc := hd c (List.mem_cons_self _ _)
      unfold dropSign
      split
      · rename_i heq; injection heq with h1 _; exact absurd h1 (isDigit_ne_minus c hc)
      · rename_i heq; injection heq with h1 _; exact absurd h1 (isDigit_ne_plus c hc)
      · rfl

theorem stoi_digits (n : Str) (h : IsDigits n) (hr : inIntRange (digitsValue n) = true) :
    stoi n = some (digitsValue n : Int) := by
  obtain ⟨hne, hd⟩ := h
  cases n with
  | nil => exact absurd rfl hne
  | cons c r =>
      have hc := hd c (List.mem_cons_self _ _)
      have hsp : (c :: r).dropWhile isspace = c :: r := by
        rw [List.dropWhile_cons, isDigit_not_isspace c hc]; rfl
      have hds : dropSign (c :: r) = c :: r := dropSign_digits _ ⟨hne, hd⟩
      have htw : (c :: r).takeWhile Char.isDigit = c :: r := takeWhile_all _ _ hd
      have hneg : (match c :: r with | '-' :: _ => true | _ => false) = false := by
        split
        · rename_i heq; injection heq with h1 _; exact absurd h1 (isDigit_ne_minus c hc)
        · rfl
      unfold stoi
      simp only [hsp, hds, htw, hneg, List.isEmpty_cons, Bool.false_eq_true, if_false, hr,
        if_true]

theorem stoi_intToString (v : Int) (hr : inIntRange v = true) :
    stoi (intToString v) = some v := by
  obtain ⟨⟨hne, hd⟩, hv⟩ := natToString_spec v.natAbs
  unfold intToString
  by_cases hneg : v < 0
  · rw [if_pos hneg]
    have hsp : ('-' :: natToString v.natAbs).dropWhile isspace = '-' :: natToString v.natAbs := by
      rw [List.dropWhile_cons]
      have : isspace '-' = false := by decide
      rw [this]; rfl
    have htw : (natToString v.natAbs).takeWhile Char.isDigit = natToString v.natAbs :=
      takeWhile_all _ _ hd
    have hval : -(digitsValue (natToString v.natAbs) : Int) = v := by
      rw [hv]; omega
    unfold stoi
    simp only [hsp, dropSign, htw, List.isEmpty_eq_true, hne, if_false, if_true, hval, hr]
  · rw [if_neg hneg]
    have hval : (digitsValue (natToString v.natAbs) : Int) = v := by
      rw [hv]; omega
    have := stoi_digits (natToString v.natAbs) ⟨hne, hd⟩ (by rw [hval]; exact hr)
    rw [this, hval]

theorem digit_not_special (c : Char) (h : c.isDigit = true) :
    isOperator [c] = false ∧ isParenthesis [c] = false ∧ ([c] != [' ']) = true := by
  have n1 : c ≠ '+' := by intro hc; subst hc; revert h; decide
  have n2 : c ≠ '-' := by intro hc; subst hc; revert h; decide
  have n3 : c ≠ '*' := by intro hc; subst hc; revert h; decide
  have n4 : c ≠ '/' := by intro hc; subst hc; revert h; decide
  have n5 : c ≠ '(' := by intro hc; subst hc; revert h; decide
  have n6 : c ≠ ')' := by intro hc; subst hc; revert h; decide
  have n7 : c ≠ ' ' := by intro hc; subst hc; revert h; decide
  simp [isOperator, isParenthesis, n1, n2, n3, n4, n5, n6, n7]

theorem isOp_isOperator (op : Char) (h : IsOp op) : isOperator [op] = true := by
  rcases h with h | h | h | h <;> (subst h; decide)

theorem digits_not_operator (n : Str) (h : IsDigits n) :
    isOperator n = false ∧ (n == ['(']) = false ∧ (n == [')']) = false := by
  obtain ⟨hne, hd⟩ := h
  cases n with
  | nil => exact absurd rfl hne
  | cons c r =>
      have hc := hd c (List.mem_cons_self _ _)
      obtain ⟨h1, h2, _⟩ := digit_not_special c hc
      cases r with
      | nil =>
          refine ⟨h1, ?_, ?_⟩
          · simp only [isParenthesis, Bool.or_eq_false_iff] at h2; exact h2.1
          · simp only [isParenthesis, Bool.or_eq_false_iff] at h2; exact h2.2
      | cons d r => simp [isOperator]

theorem isDataNumber_digits (n : Str) (h : IsDigits n) : isDataNumber n = true := by
  unfold isDataNumber
  rw [dropSign_digits n h, List.all_eq_true]
  exact h.2

theorem tokenizeLoop_plain (b : Bool) (ds tail : List Char) (tokens : List Str) (str : Str)
    (h : ∀ c ∈ ds, PlainChar c) :
    tokenizeLoop b (ds ++ tail) tokens str = tokenizeLoop b tail tokens (str ++ ds) := by
  induction ds generalizing str with
  | nil => simp
  | cons c ds ih =>
      obtain ⟨h1, h2, h3⟩ := h c (List.mem_cons_self _ _)
      rw [List.cons_append, tokenizeLoop]
      simp only [h1, h2, h3, Bool.or_self, Bool.false_eq_true, if_false, if_true]
      rw [ih _ (fun x hx => h x (List.mem_cons_of_mem _ hx))]
      simp

theorem tokenizeLoop_digits (b : Bool) (ds tail : List Char) (tokens : List Str) (str : Str)
    (h : ∀ c ∈ ds, c.isDigit = true) :
    tokenizeLoop b (ds ++ tail) tokens str = tokenizeLoop b tail tokens (str ++ ds) :=
  tokenizeLoop_plain b ds tail tokens str (fun c hc => digit_not_special c (h c hc))

theorem tokenizeLoop_formula (rest : List (Char × Str))
    (hrest : ∀ p ∈ rest, IsOp p.1 ∧ IsDigits p.2) (tokens : List Str) (n : Str)
    (hn : IsDigits n) :
    ∃ tokens1 last, tokenizeLoop true (rest.flatMap (fun p => p.1 :: p.2)) tokens n
        = TokenizeLoop.finished tokens1 last
      ∧ IsDigits last ∧ tokens1 ++ [last] = tokens ++ infixTokens n rest := by
  induction rest generalizing tokens n with
  | nil => exact ⟨tokens, n, rfl, hn, rfl⟩
  | cons p rest ih =>
      obtain ⟨hop, hm⟩ := hrest p (List.mem_cons_self _ _)
      have hrest1 : ∀ q ∈ rest, IsOp q.1 ∧ IsDigits q.2 :=
        fun q hq => hrest q (List.mem_cons_of_mem _ hq)
      obtain ⟨t1, last, h1, h2, h3⟩ := ih hrest1 ((tokens ++ [n]) ++ [[p.1]]) p.2 hm
      refine ⟨t1, last, ?_, h2, ?_⟩
      · rw [List.flatMap_cons, List.cons_append, tokenizeLoop]
        have hne : n.isEmpty = false := by
          cases n with
          | nil => exact absurd rfl hn.1
          | cons _ _ => rfl
        simp only [isOp_isOperator _ hop, Bool.true_or, if_true, hne, Bool.not_false,
          isDataNumber_digits n hn, Bool.not_true, Bool.and_false, Bool.false_eq_true, if_false]
        rw [tokenizeLoop_digits _ _ _ _ _ hm.2]
        simpa using h1
      · rw [h3]
        simp [infixTokens, List.flatMap_cons]

theorem popOperators_all (stack out : List Str) (h : ∀ t ∈ stack, isOperator t = true) :
    popOperators stack out = ([], out ++ stack) := by
  induction stack generalizing out with
  | nil => simp [popOperators]
  | cons t stack ih =>
      rw [popOperators, if_pos (h t (List.mem_cons_self _ _)),
        ih _ (fun x hx => h x (List.mem_cons_of_mem _ hx))]
      simp

theorem drainStack_all (stack out : List Str) (h : ∀ t ∈ stack, isOperator t = true) :
    drainStack stack out = (true, out ++ stack) := by
  induction stack generalizing out with
  | nil => simp [drainStack]
  | cons t stack ih =>
      have ht := h t (List.mem_cons_self _ _)
      have hp : isParenthesis t = false := by
        have h1 := isOperator_ne_open t ht
        have h2 := isOperator_ne_close t ht
        simp [isParenthesis, h1, h2]
      rw [drainStack]
      simp only [hp, Bool.false_eq_true, if_false]
      rw [ih _ (fun x hx => h x (List.mem_cons_of_mem _ hx))]
      simp

theorem matchLoop_operator (t : Str) (rest stack out : List Str) (h : isOperator t = true) :
    matchLoop (t :: rest) stack out
      = matchLoop rest (t :: (popOperators stack out).1) (popOperators stack out).2 := by
  conv => lhs; unfold matchLoop
  simp only [h, if_true]

theorem matchLoop_operand (t : Str) (rest stack out : List Str) (h1 : isOperator t = false)
    (h2 : (t == ['(']) = false) (h3 : (t == [')']) = false) :
    matchLoop (t :: rest) stack out = matchLoop rest stack (out ++ [t]) := by
  conv => lhs; unfold matchLoop
  simp only [h1, h2, h3, Bool.false_eq_true, if_false]

theorem matchLoop_formula (rest : List (Char × Str))
    (hrest : ∀ p ∈ rest, IsOp p.1 ∧ IsDigits p.2) (stack out : List Str)
    (hstack : ∀ t ∈ stack, isOperator t = true) :
    matchLoop (rest.flatMap (fun p => [[p.1], p.2])) stack out
      = (true, out ++ postfixTail stack rest) := by
  induction rest generalizing stack out with
  | nil => simpa [postfixTail, matchLoop] using drainStack_all stack out hstack
  | cons p rest ih =>
      obtain ⟨hop, hm⟩ := hrest p (List.mem_cons_self _ _)
      have hrest1 : ∀ q ∈ rest, IsOp q.1 ∧ IsDigits q.2 :=
        fun q hq => hrest q (List.mem_cons_of_mem _ hq)
      obtain ⟨d1, d2, d3⟩ := digits_not_operator p.2 hm
      have hs1 : ∀ t ∈ [[p.1]], isOperator t = true := by
        intro t ht
        rw [List.mem_singleton] at ht
        rw [ht]; exact isOp_isOperator _ hop
      rw [List.flatMap_cons]
      simp only [List.cons_append, List.nil_append]
      rw [matchLoop_operator _ _ _ _ (isOp_isOperator _ hop), popOperators_all stack out hstack]
      simp only []
      rw [matchLoop_operand _ _ _ _ d1 d2 d3]
      rw [ih hrest1 _ _ hs1]
      simp [postfixTail]

theorem binaryResult_eq (op : Char) (a b : Int) : binaryResult [op] a b = applyOp op a b := by
  simp [binaryResult, applyOp]

theorem postfixTail_single (op : Char) (rest : List (Char × Str)) :
    ∃ more, postfixTail [[op]] rest = [op] :: more
      ∧ (rest = [] → more = [])
      ∧ (∀ p rest1, rest = p :: rest1 → more = p.2 :: postfixTail [[p.1]] rest1) := by
  cases rest with
  | nil => exact ⟨[], rfl, fun _ => rfl, fun _ _ h => (by cases h)⟩
  | cons q rest1 =>
      refine ⟨q.2 :: postfixTail [[q.1]] rest1, rfl, fun h => (by cases h), ?_⟩
      intro p r h
      injection h with h1 h2
      subst h1; subst h2; rfl

theorem evalLoop_formula (rest : List (Char × Str))
    (hrest : ∀ p ∈ rest, IsOp p.1 ∧ IsDigits p.2) (op : Char) (n s : Str) (acc : Int)
    (hop : IsOp op) (hn : IsDigits n) (hs : stoi s = some acc)
    (hsafe : FoldSafe acc ((op, n) :: rest)) :
    evalLoop (n :: postfixTail [[op]] rest) [s]
      = Res.ok (some [intToString (foldValue acc ((op, n) :: rest))]) := by
  induction rest generalizing op n s acc with
  | nil =>
      obtain ⟨h1, h2, h3, _⟩ := hsafe
      simp only at h1 h2 h3
      obtain ⟨d1, _, _⟩ := digits_not_operator n hn
      have hz : ((digitsValue n : Int) == 0 && [op] == ['/']) = false := by
        rw [Bool.and_eq_false_iff]
        by_cases hv : digitsValue n = 0
        · right
          have : op ≠ '/' := fun ho => h2 ⟨ho, hv⟩
          simp [this]
        · left
          simp [hv]
      simp only [postfixTail, evalLoop, evalStep, d1, isOp_isOperator _ hop, Bool.not_false, Bool.not_true,
        Bool.false_eq_true, if_false, if_true, stoi_digits n hn h1, hs, hz, binaryResult_eq, h3]
      simp [foldValue]
  | cons p rest ih =>
      obtain ⟨hop1, hm⟩ := hrest p (List.mem_cons_self _ _)
      have hrest1 : ∀ q ∈ rest, IsOp q.1 ∧ IsDigits q.2 :=
        fun q hq => hrest q (List.mem_cons_of_mem _ hq)
      obtain ⟨h1, h2, h3, h4⟩ := hsafe
      simp only at h1 h2 h3 h4
      obtain ⟨d1, _, _⟩ := digits_not_operator n hn
      have hz : ((digitsValue n : Int) == 0 && [op] == ['/']) = false := by
        rw [Bool.and_eq_false_iff]
        by_cases hv : digitsValue n = 0
        · right
          have : op ≠ '/' := fun ho => h2 ⟨ho, hv⟩
          simp [this]
        · left
          simp [hv]
      have step : evalLoop (n :: postfixTail [[op]] (p :: rest)) [s]
          = evalLoop (p.2 :: postfixTail [[p.1]] rest)
              [intToString (applyOp op acc (digitsValue n))] := by
        simp only [postfixTail, List.singleton_append, evalLoop, evalStep, d1, isOp_isOperator _ hop,
          Bool.not_false, Bool.not_true, Bool.false_eq_true, if_false, if_true,
          stoi_digits n hn h1, hs, hz, binaryResult_eq, h3]
      rw [step, ih hrest1 p.1 p.2 _ _ hop1 hm (stoi_intToString _ h3) h4]
      simp [foldValue]

/-! ## Properties of classification, matching and arithmetic -/

theorem evalLoop_append (front back st : List Str) (st1 : List Str)
    (h : evalLoop front st = Res.ok (some st1)) :
    evalLoop (front ++ back) st = evalLoop back st1 := by
  induction front generalizing st with
  | nil =>
      simp only [evalLoop, Res.ok.injEq, Option.some.injEq] at h
      subst h; rfl
  | cons t front ih =>
      rw [List.cons_append, evalLoop]
      rw [evalLoop] at h
      cases hs : evalStep t st with
      | ok r =>
          cases r with
          | none => simp [hs] at h
          | some st2 =>
              simp only [hs] at h ⊢
              exact ih _ h
      | fault => simp [hs] at h
      | timeout => simp [hs] at h

/-- C1: for a parenthesis-free Expression formula `=n0 op1 n1 ... opk nk`
(k at least 1, each `ni` a non-empty digit string, each `opi` one of `+ - * /`)
with no division by zero and all literals and intermediate results inside
the 32-bit signed range, the string is classified Expression and `calculate`
on the fresh cell sets the value to the decimal text of the strict left fold
with truncating division; `=2+3*4` gives `20` and `=0-7/2` gives `-3`. -/
theorem calculate_left_fold (n0 : Str) (rest : List (Char × Str)) (pos : Char × Nat)
    (h0 : IsDigits n0) (hne : rest ≠ [])
    (hrest : ∀ p ∈ rest, IsOp p.1 ∧ IsDigits p.2)
    (hr0 : inIntRange (digitsValue n0) = true)
    (hsafe : FoldSafe (digitsValue n0) rest) :
    (createCell ('=' :: formulaBody n0 rest) pos
        = some (Cell.expression
            (ExpressionCell.create ('=' :: formulaBody n0 rest) CellType.EXPRESSION pos))
      ∧ ∃ c, calculateSimple
            (ExpressionCell.create ('=' :: formulaBody n0 rest) CellType.EXPRESSION pos)
          = Res.ok c
        ∧ c.m_value = intToString (foldValue (digitsValue n0) rest))
    ∧ (∃ c, calculateSimple (ExpressionCell.create "=2+3*4".toList CellType.EXPRESSION pos)
          = Res.ok c ∧ c.m_value = "20".toList)
    ∧ (∃ c, calculateSimple (ExpressionCell.create "=0-7/2".toList CellType.EXPRESSION pos)
          = Res.ok c ∧ c.m_value = "-3".toList) := by
  refine ⟨⟨?_, ?_⟩, ⟨_, rfl, rfl⟩, ⟨_, rfl, rfl⟩⟩
  · have hty : getCellType ('=' :: formulaBody n0 rest) = some CellType.EXPRESSION := by
      rw [getCellType_eq_cons, if_pos]
      refine ⟨?_, ?_⟩
      · intro hb
        have : n0 = [] := by
          unfold formulaBody at hb
          exact (List.append_eq_nil.mp hb).1
        exact h0.1 this
      · intro c hc
        rw [← simpleExpressionChar_eq]
        unfold formulaBody at hc
        have hdig : ∀ d : Char, d.isDigit = true → simpleExpressionChar d = true := by
          intro d hd; simp [simpleExpressionChar, hd]
        have hopc : ∀ d : Char, IsOp d → simpleExpressionChar d = true := by
          intro d hd
          rcases hd with hd | hd | hd | hd <;> (subst hd; decide)
        rcases List.mem_append.mp hc with hc | hc
        · exact hdig c (h0.2 c hc)
        · rw [List.mem_flatMap] at hc
          obtain ⟨p, hp, hcp⟩ := hc
          obtain ⟨ho, hd⟩ := hrest p hp
          rcases List.mem_cons.mp hcp with hcp | hcp
          · rw [hcp]; exact hopc _ ho
          · exact hdig c (hd.2 c hcp)
    simp only [createCell, hty]
  · cases rest with
    | nil => exact absurd rfl hne
    | cons p rest =>
        obtain ⟨hop, hn⟩ := hrest p (List.mem_cons_self _ _)
        have hrest1 : ∀ q ∈ rest, IsOp q.1 ∧ IsDigits q.2 :=
          fun q hq => hrest q (List.mem_cons_of_mem _ hq)
        obtain ⟨t1, last, ht1, hlast, ht2⟩ := tokenizeLoop_formula (p :: rest) hrest [] n0 h0
        have htok : tokenizeLoop true (formulaBody n0 (p :: rest)) [] []
            = TokenizeLoop.finished t1 last := by
          unfold formulaBody
          rw [tokenizeLoop_digits _ _ _ _ _ h0.2]
          simpa using ht1
        have hlast1 : (!last.isEmpty && last != [' ']) = true := by
          obtain ⟨hl1, hl2⟩ := hlast
          cases last with
          | nil => exact absurd rfl hl1
          | cons c r =>
              have hc := hl2 c (List.mem_cons_self _ _)
              have : c ≠ ' ' := by intro h; subst h; revert hc; decide
              simp [this]
        obtain ⟨e1, e2, e3⟩ := digits_not_operator n0 h0
        have hm : matchLoop (infixTokens n0 (p :: rest)) [] []
            = (true, n0 :: p.2 :: postfixTail [[p.1]] rest) := by
          unfold infixTokens
          rw [matchLoop_operand _ _ _ _ e1 e2 e3,
            matchLoop_formula (p :: rest) hrest [] _ (by simp)]
          simp [postfixTail]
        have he : evalLoop (n0 :: p.2 :: postfixTail [[p.1]] rest) []
            = Res.ok (some [intToString (foldValue (digitsValue n0) (p :: rest))]) := by
          rw [evalLoop]
          simp only [evalStep, e1, Bool.not_false, if_true]
          exact evalLoop_formula rest hrest1 p.1 p.2 n0 _ hop hn (stoi_digits n0 h0 hr0) hsafe
        refine ⟨{ m_value := intToString (foldValue (digitsValue n0) (p :: rest))
                  m_data := formulaBody n0 (p :: rest)
                  m_type := CellType.EXPRESSION
                  m_isCalculated := true
                  m_cellPosition := pos
                  m_tokens := n0 :: p.2 :: postfixTail [[p.1]] rest
                  m_refBackup := [] }, ?_, rfl⟩
        simp only [calculateSimple, simpleExpressionTokenize, ExpressionCell.create,
          List.drop_succ_cons, List.drop_zero, beq_self_eq_true, htok, hlast1, if_true,
          finishCalculate, Bool.false_eq_true, if_false, isMatchParentheses, ht2,
          List.nil_append, hm, he]

theorem calculate_left_fold_witness :
    (createCell ('=' :: formulaBody ['1', '2'] [('/', ['5']), ('-', ['7'])]) ('A', 1)
        = some (Cell.expression
            (ExpressionCell.create ('=' :: formulaBody ['1', '2'] [('/', ['5']), ('-', ['7'])])
              CellType.EXPRESSION ('A', 1)))
      ∧ ∃ c, calculateSimple
            (ExpressionCell.create ('=' :: formulaBody ['1', '2'] [('/', ['5']), ('-', ['7'])])
              CellType.EXPRESSION ('A', 1))
          = Res.ok c
        ∧ c.m_value = intToString (foldValue (digitsValue ['1', '2']) [('/', ['5']), ('-', ['7'])]))
    ∧ (∃ c, calculateSimple (ExpressionCell.create "=2+3*4".toList CellType.EXPRESSION ('A', 1))
          = Res.ok c ∧ c.m_value = "20".toList)
    ∧ (∃ c, calculateSimple (ExpressionCell.create "=0-7/2".toList CellType.EXPRESSION ('A', 1))
          = Res.ok c ∧ c.m_value = "-3".toList) :=
  calculate_left_fold ['1', '2'] [('/', ['5']), ('-', ['7'])] ('A', 1)
    (by unfold IsDigits; decide) (by decide)
    (by unfold IsOp IsDigits; decide) (by decide)
    (by unfold FoldSafe FoldSafe FoldSafe; decide)

/-- C9: `isMatchParentheses` returns false exactly when the parentheses of the
token sequence are unbalanced (some initial segment holds more `)` than `(`,
or the totals differ); when it returns false the value of the cell is
`#WRONG_FORMULA_TYPE`, otherwise the value is left as it was. The formulas
`=(1+2` and `=1+2)` both evaluate to `#WRONG_FORMULA_TYPE`. -/
theorem isMatchParentheses_false_iff_unbalanced (this : ExpressionCell)
    (inputTokens : List Str) (pos : Char × Nat) :
    ((isMatchParentheses this inputTokens).2 = false ↔ Unbalanced inputTokens)
    ∧ (((isMatchParentheses this inputTokens).2 = false
          ∧ (isMatchParentheses this inputTokens).1.m_value = "#WRONG_FORMULA_TYPE".toList)
        ∨ ((isMatchParentheses this inputTokens).2 = true
          ∧ (isMatchParentheses this inputTokens).1.m_value = this.m_value))
    ∧ (∃ c, calculateSimple (ExpressionCell.create "=(1+2".toList CellType.EXPRESSION pos)
          = Res.ok c ∧ c.m_value = "#WRONG_FORMULA_TYPE".toList)
    ∧ (∃ c, calculateSimple (ExpressionCell.create "=1+2)".toList CellType.EXPRESSION pos)
          = Res.ok c ∧ c.m_value = "#WRONG_FORMULA_TYPE".toList) := by
  have hspec := matchLoop_spec inputTokens [] this.m_tokens (by intro t ht; cases ht)
  rw [show countToken ['('] ([] : List Str) = 0 from rfl, unbalancedFrom_zero] at hspec
  refine ⟨?_, ?_, ⟨_, rfl, rfl⟩, ⟨_, rfl, rfl⟩⟩
  · rw [← hspec]
    unfold isMatchParentheses
    rcases matchLoop inputTokens [] this.m_tokens with ⟨b, out⟩
    cases b <;> simp
  · unfold isMatchParentheses
    rcases matchLoop inputTokens [] this.m_tokens with ⟨b, out⟩
    cases b
    · exact Or.inl ⟨rfl, rfl⟩
    · exact Or.inr ⟨rfl, rfl⟩

theorem isDataError_iff (s : Str) :
    isDataError s = true ↔
      s = "#UNKNOWN_FORMAT".toList ∨ s = "#TEXT?".toList ∨ s = "#CIRCULAR_REF".toList
        ∨ s = "#WRONG_FORMULA_TYPE".toList := by
  simp only [isDataError, Bool.or_eq_true, beq_iff_eq, errorFormat, errorExpressionEvaluation,
    errorReferenceCycling, errorFormulaEntered]
  tauto

/-- C10, as amended: when the evaluation pass of an Expression cell reaches a
`/` token with a right operand that reads as zero and a left operand on the
stack that `std::stoi` reads (as the integer `d1`), `calculate` sets the value to `#ERROR_NUM` whatever
tokens follow, as for `=5/0`; and `isDataError` is true for exactly the four
sentinels `#UNKNOWN_FORMAT`, `#TEXT?`, `#CIRCULAR_REF`, `#WRONG_FORMULA_TYPE`
and false for `#ERROR_NUM`. -/
theorem calculate_division_by_zero (this : ExpressionCell) (front back : List Str)
    (val1 val2 : Str) (st : List Str) (d1 : Int) (pos : Char × Nat)
    (htokens : evaluationTokens this = some (front ++ ['/'] :: back))
    (hreach : evalLoop front [] = Res.ok (some (val2 :: val1 :: st)))
    (h2 : stoi val2 = some 0) (h1 : stoi val1 = some d1) :
    (∃ c, calculateSimple this = Res.ok c ∧ c.m_value = "#ERROR_NUM".toList)
    ∧ (∃ c, calculateSimple (ExpressionCell.create "=5/0".toList CellType.EXPRESSION pos)
          = Res.ok c ∧ c.m_value = "#ERROR_NUM".toList)
    ∧ (∀ s, isDataError s = true ↔
        s = "#UNKNOWN_FORMAT".toList ∨ s = "#TEXT?".toList ∨ s = "#CIRCULAR_REF".toList
          ∨ s = "#WRONG_FORMULA_TYPE".toList)
    ∧ isDataError "#ERROR_NUM".toList = false := by
  refine ⟨?_, ⟨_, rfl, rfl⟩, isDataError_iff, by decide⟩
  have hstep : evalLoop (front ++ ['/'] :: back) [] = Res.ok none := by
    rw [evalLoop_append front _ [] _ hreach, evalLoop]
    simp [evalStep, isOperator, h1, h2]
  unfold evaluationTokens at htokens
  unfold calculateSimple
  rcases hsplit : simpleExpressionTokenize this this.m_data with ⟨this1, data1, tokens⟩
  rw [hsplit] at htokens
  simp only at htokens ⊢
  by_cases hcalc : this1.m_isCalculated = true
  · simp [hcalc] at htokens
  · have hcalc1 : this1.m_isCalculated = false := by simpa using hcalc
    simp only [hcalc1, Bool.false_eq_true, if_false] at htokens
    unfold finishCalculate
    simp only [hcalc1, Bool.false_eq_true, if_false]
    rcases hm : isMatchParentheses
        { this1 with m_data := data1, m_isCalculated := true } tokens with ⟨this2, b⟩
    rw [hm] at htokens
    cases b with
    | false => simp at htokens
    | true =>
        simp only [Option.some.injEq] at htokens
        simp only []
        rw [htokens, hstep]
        exact ⟨_, rfl, rfl⟩

theorem calculate_division_by_zero_witness :
    (∃ c, calculateSimple (ExpressionCell.create "=(4+1)/(1-1)+3".toList CellType.EXPRESSION
          ('A', 1)) = Res.ok c ∧ c.m_value = "#ERROR_NUM".toList)
    ∧ (∃ c, calculateSimple (ExpressionCell.create "=5/0".toList CellType.EXPRESSION ('A', 1))
          = Res.ok c ∧ c.m_value = "#ERROR_NUM".toList)
    ∧ (∀ s, isDataError s = true ↔
        s = "#UNKNOWN_FORMAT".toList ∨ s = "#TEXT?".toList ∨ s = "#CIRCULAR_REF".toList
          ∨ s = "#WRONG_FORMULA_TYPE".toList)
    ∧ isDataError "#ERROR_NUM".toList = false :=
  calculate_division_by_zero
    (ExpressionCell.create "=(4+1)/(1-1)+3".toList CellType.EXPRESSION ('A', 1))
    ["4".toList, "1".toList, "+".toList, "1".toList, "1".toList, "-".toList]
    ["3".toList, "+".toList] "5".toList "0".toList [] 5 ('A', 1)
    (by decide) (by decide) (by decide) (by decide)

/-- C10, counterexample: `=2147483648/0` is classified Expression and its
evaluation pass reaches the `/` with the right operand `0` and the left
operand `2147483648` on the stack. `std::stoi` does not read the left operand,
which exceeds the `int` range: it throws at Cell.cpp:220, before the zero test
of Cell.cpp:222, and `calculate` does not set the value to `#ERROR_NUM`. -/
theorem division_by_zero_left_out_of_range :
    getCellType "=2147483648/0".toList = some CellType.EXPRESSION
    ∧ evaluationTokens
          (ExpressionCell.create "=2147483648/0".toList CellType.EXPRESSION ('A', 1))
        = some (["2147483648".toList, "0".toList] ++ ['/'] :: [])
    ∧ evalLoop ["2147483648".toList, "0".toList] []
        = Res.ok (some ["0".toList, "2147483648".toList])
    ∧ stoi "0".toList = some 0
    ∧ stoi "2147483648".toList = none
    ∧ calculateSimple
          (ExpressionCell.create "=2147483648/0".toList CellType.EXPRESSION ('A', 1))
        = Res.fault
    ∧ ¬ ∃ c, calculateSimple
          (ExpressionCell.create "=2147483648/0".toList CellType.EXPRESSION ('A', 1))
        = Res.ok c ∧ c.m_value = "#ERROR_NUM".toList := by
  have hf : calculateSimple
      (ExpressionCell.create "=2147483648/0".toList CellType.EXPRESSION ('A', 1))
        = Res.fault := rfl
  refine ⟨rfl, rfl, rfl, rfl, rfl, hf, ?_⟩
  rintro ⟨c, h, -⟩
  rw [hf] at h
  cases h

/-! ## Reference resolution -/

theorem refLoop_next (call : mSpreadsheet → ExpressionCell → Str →
      Res (mSpreadsheet × ExpressionCell × List Str))
    (self : Char × Nat) (data : Str) (elem : Str) (tokens : List Str)
    (cells cells1 : mSpreadsheet) (this this1 : ExpressionCell) (res res1 : List Str)
    (h : refStep cells self this data res elem = RefStep.next cells1 this1 res1) :
    refLoop call self data (elem :: tokens) cells this res
      = refLoop call self data tokens cells1 this1 res1 := by
  rw [refLoop, h]

theorem refLoop_call (call : mSpreadsheet → ExpressionCell → Str →
      Res (mSpreadsheet × ExpressionCell × List Str))
    (self : Char × Nat) (data : Str) (elem : Str) (tokens : List Str)
    (cells : mSpreadsheet) (this this1 : ExpressionCell) (res : List Str) (str : Str)
    (h : refStep cells self this data res elem = RefStep.call this1 str) :
    refLoop call self data (elem :: tokens) cells this res
      = match call cells this1 str with
        | Res.ok (cells2, this2, tmp) => refLoop call self data tokens cells2 this2 tmp
        | Res.fault => Res.fault
        | Res.timeout => Res.timeout := by
  rw [refLoop, h]

theorem refLoop_ret (call : mSpreadsheet → ExpressionCell → Str →
      Res (mSpreadsheet × ExpressionCell × List Str))
    (self : Char × Nat) (data : Str) (elem : Str) (tokens : List Str)
    (cells : mSpreadsheet) (this this1 : ExpressionCell) (res res1 : List Str)
    (h : refStep cells self this data res elem = RefStep.ret this1 res1) :
    refLoop call self data (elem :: tokens) cells this res = Res.ok (cells, this1, res1) := by
  rw [refLoop, h]

theorem referanceExpressionTokenizeBody_loop (call : mSpreadsheet → ExpressionCell → Str →
      Res (mSpreadsheet × ExpressionCell × List Str))
    (self : Char × Nat) (cells : mSpreadsheet) (this this1 : ExpressionCell)
    (data data1 : Str) (tokens : List Str)
    (h1 : isDataNumber data = false) (h2 : isDataError data = false)
    (h3 : simpleExpressionTokenize this (data.map Char.toUpper) = (this1, data1, tokens)) :
    referanceExpressionTokenizeBody call self cells this data
      = match refLoop call self data1 tokens cells this1 [] with
        | Res.ok (cells2, this2, resultTokens) => Res.ok (cells2, this2, data1, resultTokens)
        | Res.fault => Res.fault
        | Res.timeout => Res.timeout := by
  simp only [referanceExpressionTokenizeBody, h1, h2, h3, Bool.false_eq_true, if_false]

theorem toUpper_of_lt (c : Char) (h : c.toNat < 97) : c.toUpper = c := by
  unfold Char.toUpper
  simp only
  rw [if_neg]
  omega

theorem toUpper_lower (c : Char) (h1 : 97 ≤ c.toNat) (h2 : c.toNat ≤ 122) :
    c.toUpper.isAlpha = true ∧ 65 ≤ c.toUpper.toNat := by
  have hc : c = Char.ofNat c.toNat := (Char.ofNat_toNat c).symm
  generalize c.toNat = n at hc h1 h2
  subst hc
  interval_cases n <;> decide

theorem isAlpha_ge (c : Char) (h : c.isAlpha = true) :
    (65 ≤ c.toNat ∧ c.toNat ≤ 90) ∨ (97 ≤ c.toNat ∧ c.toNat ≤ 122) := by
  simp only [Char.isAlpha, Char.isUpper, Char.isLower, Bool.or_eq_true, Bool.and_eq_true,
    decide_eq_true_eq] at h
  rcases h with h | h
  · left
    have h1 : (65 : Nat) ≤ c.toNat := h.1
    have h2 : c.toNat ≤ (90 : Nat) := h.2
    exact ⟨h1, h2⟩
  · right
    have h1 : (97 : Nat) ≤ c.toNat := h.1
    have h2 : c.toNat ≤ (122 : Nat) := h.2
    exact ⟨h1, h2⟩

theorem toUpper_alpha (c : Char) (h : c.isAlpha = true) :
    c.toUpper.isAlpha = true ∧ 65 ≤ c.toUpper.toNat := by
  rcases isAlpha_ge c h with ⟨h1, h2⟩ | ⟨h1, h2⟩
  · rw [toUpper_of_lt c (by omega)]
    exact ⟨h, h1⟩
  · exact toUpper_lower c h1 h2

theorem plainChar_of_ge (c : Char) (h : 48 ≤ c.toNat) : PlainChar c := by
  have n1 : c ≠ '+' := by intro hc; subst hc; revert h; decide
  have n2 : c ≠ '-' := by intro hc; subst hc; revert h; decide
  have n3 : c ≠ '*' := by intro hc; subst hc; revert h; decide
  have n4 : c ≠ '/' := by intro hc; subst hc; revert h; decide
  have n5 : c ≠ '(' := by intro hc; subst hc; revert h; decide
  have n6 : c ≠ ')' := by intro hc; subst hc; revert h; decide
  have n7 : c ≠ ' ' := by intro hc; subst hc; revert h; decide
  simp [PlainChar, isOperator, isParenthesis, n1, n2, n3, n4, n5, n6, n7]

theorem isDigit_bounds (c : Char) (h : c.isDigit = true) : 48 ≤ c.toNat ∧ c.toNat ≤ 57 := by
  simp only [Char.isDigit, Bool.and_eq_true, decide_eq_true_eq] at h
  exact ⟨h.1, h.2⟩

theorem map_toUpper_of_le (l : List Char) (h : ∀ x ∈ l, x.toNat ≤ 57) :
    l.map Char.toUpper = l := by
  induction l with
  | nil => rfl
  | cons a l ih =>
      rw [List.map_cons, ih (fun x hx => h x (List.mem_cons_of_mem _ hx)),
        toUpper_of_lt a (by have := h a (List.mem_cons_self _ _); omega)]

theorem cellReferance_shape (nm : Str) (h : isDataCellReferance nm = true) :
    ∃ c d rest, nm = c :: d :: rest ∧ c.isAlpha = true ∧ 49 ≤ d.toNat ∧ d.toNat ≤ 57
      ∧ rest.length ≤ 2 ∧ ∀ x ∈ rest, x.isDigit = true := by
  match nm, h with
  | c :: d :: rest, h =>
      simp only [isDataCellReferance, Bool.and_eq_true, decide_eq_true_eq,
        List.all_eq_true] at h
      exact ⟨c, d, rest, rfl, h.1.1.1, h.1.1.2.1, h.1.1.2.2, h.1.2, h.2⟩

theorem cellReferance_upper (nm : Str) (h : isDataCellReferance nm = true) :
    isDataCellReferance (nm.map Char.toUpper) = true
      ∧ (∀ x ∈ nm.map Char.toUpper, PlainChar x)
      ∧ 2 ≤ (nm.map Char.toUpper).length := by
  obtain ⟨c, d, rest, rfl, hc, hd1, hd2, hlen, hrest⟩ := cellReferance_shape nm h
  obtain ⟨hu1, hu2⟩ := toUpper_alpha c hc
  have htail : (d :: rest).map Char.toUpper = d :: rest := by
    apply map_toUpper_of_le
    intro x hx
    rcases List.mem_cons.mp hx with hx | hx
    · rw [hx]; exact hd2
    · exact (isDigit_bounds x (hrest x hx)).2
  have hmap : (c :: d :: rest).map Char.toUpper = c.toUpper :: d :: rest := by
    rw [List.map_cons, htail]
  rw [hmap]
  refine ⟨?_, ?_, ?_⟩
  · simp only [isDataCellReferance, Bool.and_eq_true, decide_eq_true_eq, List.all_eq_true]
    exact ⟨⟨⟨hu1, hd1, hd2⟩, hlen⟩, hrest⟩
  · intro x hx
    rcases List.mem_cons.mp hx with hx | hx
    · rw [hx]; exact plainChar_of_ge _ (by omega)
    · rcases List.mem_cons.mp hx with hx | hx
      · rw [hx]; exact plainChar_of_ge _ (by omega)
      · exact plainChar_of_ge _ (isDigit_bounds x (hrest x hx)).1
  · simp

theorem alpha_not_simpleExpressionChar (c : Char) (h : c.isAlpha = true) :
    simpleExpressionChar c = false := by
  have hb : 65 ≤ c.toNat ∧ c.toNat ≠ 94 := by
    rcases isAlpha_ge c h with h1 | h1 <;> omega
  have hnd : c.isDigit = false := by
    rw [← Bool.not_eq_true]
    intro hd
    have := (isDigit_bounds c hd).2
    omega
  have hrange : (decide (42 ≤ c.toNat) && decide (c.toNat ≤ 47)) = false := by
    rw [Bool.and_eq_false_iff]
    right
    rw [decide_eq_false_iff_not]
    omega
  have n1 : (c == '+') = false := by
    rw [beq_eq_false_iff_ne]; intro hc; subst hc; revert hb; decide
  have n2 : (c == '^') = false := by
    rw [beq_eq_false_iff_ne]; intro hc; subst hc; revert hb; decide
  have n3 : (c == '(') = false := by
    rw [beq_eq_false_iff_ne]; intro hc; subst hc; revert hb; decide
  have n4 : (c == ')') = false := by
    rw [beq_eq_false_iff_ne]; intro hc; subst hc; revert hb; decide
  have n5 : (c == '.') = false := by
    rw [beq_eq_false_iff_ne]; intro hc; subst hc; revert hb; decide
  have n6 : (c == ',') = false := by
    rw [beq_eq_false_iff_ne]; intro hc; subst hc; revert hb; decide
  have n7 : (c == ' ') = false := by
    rw [beq_eq_false_iff_ne]; intro hc; subst hc; revert hb; decide
  simp only [simpleExpressionChar, hnd, hrange, n1, n2, n3, n4, n5, n6, n7, Bool.or_self]

theorem getCellType_reference (nm : Str) (h : isDataCellReferance nm = true) :
    getCellType ('=' :: nm) = some CellType.REFERANCE := by
  obtain ⟨c, d, rest, rfl, hc, _⟩ := cellReferance_shape nm h
  rw [getCellType_eq_cons, if_neg]
  rintro ⟨_, hall⟩
  have h1 := hall c (List.mem_cons_self _ _)
  rw [← simpleExpressionChar_eq, alpha_not_simpleExpressionChar c hc] at h1
  cases h1

theorem tokenize_reference (this : ExpressionCell) (nm : Str)
    (h : isDataCellReferance nm = true) (hty : this.m_type = CellType.REFERANCE) :
    simpleExpressionTokenize this (('=' :: nm).map Char.toUpper)
      = (this, nm.map Char.toUpper, [nm.map Char.toUpper]) := by
  obtain ⟨_, hplain, hlen⟩ := cellReferance_upper nm h
  have hloop : tokenizeLoop false (nm.map Char.toUpper) [] []
      = TokenizeLoop.finished [] (nm.map Char.toUpper) := by
    have := tokenizeLoop_plain false (nm.map Char.toUpper) [] [] [] hplain
    rw [List.append_nil] at this
    rw [this]
    rfl
  have hne : (!(nm.map Char.toUpper).isEmpty && nm.map Char.toUpper != [' ']) = true := by
    generalize nm.map Char.toUpper = u at hlen
    match u, hlen with
    | a :: b :: r, _ => simp
  have hb : (this.m_type == CellType.EXPRESSION) = false := by
    rw [hty]; decide
  simp only [simpleExpressionTokenize, List.map_cons, List.drop_succ_cons, List.drop_zero, hb,
    hloop, hne, if_true, List.nil_append]

theorem reference_not_number_or_error (nm : Str) :
    isDataNumber ('=' :: nm) = false ∧ isDataError ('=' :: nm) = false := by
  constructor
  · simp [isDataNumber, dropSign]
  · simp [isDataError, errorFormat, errorExpressionEvaluation, errorReferenceCycling,
      errorFormulaEntered]

theorem getCell_some (cells : mSpreadsheet) (l : Char) (row : Nat) (c : Cell)
    (h : getCell cells l row = some c) :
    ∃ column, cells.lookup l = some column ∧ row ≠ 0 ∧ column[row - 1]? = some c := by
  unfold getCell at h
  cases hl : cells.lookup l with
  | none => simp [hl] at h
  | some column =>
      simp only [hl] at h
      by_cases hr : row = 0
      · simp [hr] at h
      · rw [if_neg hr] at h
        exact ⟨column, rfl, hr, h⟩

theorem setCell_cons (k : Char) (column : List Cell) (cells : mSpreadsheet) (l : Char)
    (row : Nat) (c : Cell) :
    setCell ((k, column) :: cells) l row c
      = (if (k == l) = true then (k, column.set (row - 1) c) else (k, column))
          :: setCell cells l row c := rfl

theorem getCell_cons_same (k : Char) (column : List Cell) (cells : mSpreadsheet) (row : Nat) :
    getCell ((k, column) :: cells) k row = if row = 0 then none else column[row - 1]? := by
  simp [getCell, List.lookup]

theorem getCell_cons_other (k l : Char) (column : List Cell) (cells : mSpreadsheet) (row : Nat)
    (h : k ≠ l) : getCell ((k, column) :: cells) l row = getCell cells l row := by
  have hkl : (l == k) = false := by
    rw [beq_eq_false_iff_ne]; exact fun h1 => h h1.symm
  simp [getCell, List.lookup, hkl]

theorem getCell_setCell_same (cells : mSpreadsheet) (l : Char) (row : Nat) (c0 c : Cell)
    (h : getCell cells l row = some c0) :
    getCell (setCell cells l row c) l row = some c := by
  induction cells with
  | nil => simp [getCell, List.lookup] at h
  | cons entry cells ih =>
      obtain ⟨k, column⟩ := entry
      rw [setCell_cons]
      by_cases hk : k = l
      · subst hk
        rw [getCell_cons_same] at h
        rw [if_pos (beq_self_eq_true k), getCell_cons_same]
        by_cases hr : row = 0
        · simp [hr] at h
        · rw [if_neg hr] at h ⊢
          have hlt : row - 1 < column.length := by
            rcases Nat.lt_or_ge (row - 1) column.length with h1 | h1
            · exact h1
            · rw [List.getElem?_eq_none h1] at h; cases h
          simp [hlt]
      · have hlk : ¬ ((k == l) = true) := by
          rw [beq_iff_eq]; exact hk
        rw [getCell_cons_other k l column cells row hk] at h
        rw [if_neg hlk, getCell_cons_other k l column _ row hk]
        exact ih h

theorem refStep_reference (cells : mSpreadsheet) (self : Char × Nat) (this : ExpressionCell)
    (data : Str) (res : List Str) (u : Str) (q : Char × Nat) (tc0 tc : Cell)
    (hshape : isDataCellReferance u = true)
    (hhead : u.headD (Char.ofNat 0) = q.1)
    (hrow : stoi (u.drop 1) = some (q.2 : Int))
    (hcell : getCell cells q.1 q.2 = some tc0)
    (htarget : targetCell cells self this q.1 q.2 = some tc)
    (hval : isDataError tc.getValue = false)
    (htype : tc.getType = CellType.REFERANCE) :
    refStep cells self this data res u =
      if q ∈ this.m_refBackup then
        RefStep.ret
          { this with
            m_value := errorReferenceCycling
            m_isCalculated := true
            m_refBackup := [] }
          [errorReferenceCycling]
      else RefStep.call { this with m_refBackup := q :: this.m_refBackup } tc.getValue := by
  obtain ⟨column, hl, hr, hget⟩ := getCell_some cells q.1 q.2 tc0 hcell
  have hlt : q.2 - 1 < column.length := by
    rcases Nat.lt_or_ge (q.2 - 1) column.length with h1 | h1
    · exact h1
    · rw [List.getElem?_eq_none h1] at hget; cases hget
  have hbound : ¬ ((q.2 : Int) < 0 ∨ (column.length : Int) < (q.2 : Int)) := by
    omega
  have hnat : (q.2 : Int).toNat = q.2 := Int.toNat_ofNat _
  unfold refStep
  simp only [hshape, Bool.not_true, Bool.false_and, Bool.false_eq_true, if_false, hhead, hl,
    hrow, hbound, hnat, htarget, hval, htype]
  simp

theorem cycleVisited_mem (p : Nat → Char × Nat) (n s j : Nat) (q : Char × Nat) :
    q ∈ cycleVisited p n s j ↔ ∃ i, i < j ∧ q = p ((s + i + 1) % n) := by
  induction j with
  | zero => simp [cycleVisited]
  | succ j ih =>
      simp only [cycleVisited, List.mem_cons, ih]
      constructor
      · rintro (h | ⟨i, hi, h⟩)
        · exact ⟨j, Nat.lt_succ_self j, h⟩
        · exact ⟨i, Nat.lt_succ_of_lt hi, h⟩
      · rintro ⟨i, hi, h⟩
        rcases Nat.lt_succ_iff_lt_or_eq.mp hi with hi | hi
        · exact Or.inr ⟨i, hi, h⟩
        · subst hi; exact Or.inl h

theorem mod_ne_of_lt (n a i j : Nat) (hij : i < j) (hjn : j < n + i) :
    (a + j) % n ≠ (a + i) % n := by
  intro h
  have h1 : (a + j - (a + i)) % n = 0 := Nat.sub_mod_eq_zero_of_mod_eq h
  have h2 : a + j - (a + i) = j - i := by omega
  rw [h2, Nat.mod_eq_of_lt (by omega)] at h1
  omega

theorem createCell_reference (nm : Str) (pos : Char × Nat)
    (h : isDataCellReferance nm = true) :
    createCell ('=' :: nm) pos
      = some (Cell.expression (ExpressionCell.create ('=' :: nm) CellType.REFERANCE pos)) := by
  simp only [createCell, getCellType_reference nm h]

theorem cycle_target (cells : mSpreadsheet) (n : Nat) (p : Nat → Char × Nat) (nm : Nat → Str)
    (hinj : ∀ i j, i < n → j < n → p i = p j → i = j)
    (hcell : ∀ i, i < n → getCell cells (p i).1 (p i).2 = createCell ('=' :: nm i) (p i))
    (href : ∀ i, i < n → RefersTo (nm i) (p ((i + 1) % n)))
    (s : Nat) (hs : s < n) (t : Nat) (ht : t < n) (rb : List (Char × Nat)) :
    ∃ tc0 tc, getCell cells (p t).1 (p t).2 = some tc0
      ∧ targetCell cells (p s)
          { ExpressionCell.create ('=' :: nm s) CellType.REFERANCE (p s) with m_refBackup := rb }
          (p t).1 (p t).2 = some tc
      ∧ tc.getValue = '=' :: nm t ∧ tc.getType = CellType.REFERANCE := by
  have hc := hcell t ht
  rw [createCell_reference (nm t) (p t) (href t ht).1] at hc
  by_cases hq : p t = p s
  · have hts : t = s := hinj t s ht hs hq
    subst hts
    refine ⟨_, Cell.expression
      { ExpressionCell.create ('=' :: nm t) CellType.REFERANCE (p t) with m_refBackup := rb },
      hc, ?_, rfl, rfl⟩
    unfold targetCell
    rw [if_pos rfl]
  · refine ⟨_, Cell.expression (ExpressionCell.create ('=' :: nm t) CellType.REFERANCE (p t)),
      hc, ?_, rfl, rfl⟩
    unfold targetCell
    rw [if_neg hq]
    exact hc

theorem cycle_resolve (cells : mSpreadsheet) (n : Nat) (p : Nat → Char × Nat) (nm : Nat → Str)
    (hn : 1 ≤ n)
    (hinj : ∀ i j, i < n → j < n → p i = p j → i = j)
    (hcell : ∀ i, i < n → getCell cells (p i).1 (p i).2 = createCell ('=' :: nm i) (p i))
    (href : ∀ i, i < n → RefersTo (nm i) (p ((i + 1) % n)))
    (s : Nat) (hs : s < n) (k : Nat) :
    ∀ j, j + k = n → ∀ fuel, k + 1 ≤ fuel →
      referanceExpressionTokenize fuel (p s) cells
          { ExpressionCell.create ('=' :: nm s) CellType.REFERANCE (p s) with
            m_refBackup := cycleVisited p n s j }
          ('=' :: nm ((s + j) % n))
        = Res.ok (cells,
            { ExpressionCell.create ('=' :: nm s) CellType.REFERANCE (p s) with
              m_value := errorReferenceCycling
              m_isCalculated := true
              m_refBackup := [] },
            (nm ((s + j) % n)).map Char.toUpper, [errorReferenceCycling]) := by
  have hnpos : 0 < n := hn
  induction k with
  | zero =>
      intro j hj fuel hf
      obtain ⟨f, rfl⟩ : ∃ f, fuel = f + 1 := ⟨fuel - 1, by omega⟩
      have hi : (s + j) % n < n := Nat.mod_lt _ hnpos
      have hq : ((s + j) % n + 1) % n = (s + j + 1) % n := Nat.mod_add_mod _ _ _
      have ht : (s + j + 1) % n < n := Nat.mod_lt _ hnpos
      obtain ⟨hshape, hhead, hrow⟩ := href _ hi
      rw [hq] at hhead hrow
      obtain ⟨hnum, herr⟩ := reference_not_number_or_error (nm ((s + j) % n))
      obtain ⟨tc0, tc, hc0, htc, hval, hty⟩ :=
        cycle_target cells n p nm hinj hcell href s hs _ ht (cycleVisited p n s j)
      have herrv : isDataError tc.getValue = false := by
        rw [hval]; exact (reference_not_number_or_error _).2
      have hmem : p ((s + j + 1) % n) ∈ cycleVisited p n s j := by
        rw [cycleVisited_mem]
        refine ⟨0, by omega, ?_⟩
        have : j = n := by omega
        subst this
        have : (s + j + 1) % j = (s + 0 + 1) % j := by
          rw [show s + j + 1 = s + 0 + 1 + j from by omega, Nat.add_mod_right]
        rw [this]
      have hstep := refStep_reference cells (p s)
        { ExpressionCell.create ('=' :: nm s) CellType.REFERANCE (p s) with
          m_refBackup := cycleVisited p n s j }
        ((nm ((s + j) % n)).map Char.toUpper) [] _ _ tc0 tc
        (cellReferance_upper _ hshape).1 hhead hrow hc0 htc herrv hty
      rw [if_pos hmem] at hstep
      rw [referanceExpressionTokenize,
        referanceExpressionTokenizeBody_loop _ _ _ _ _ _ _ _ hnum herr
          (tokenize_reference _ _ hshape rfl),
        refLoop_ret _ _ _ _ _ _ _ _ _ _ hstep]
  | succ k ih =>
      intro j hj fuel hf
      obtain ⟨f, rfl⟩ : ∃ f, fuel = f + 1 := ⟨fuel - 1, by omega⟩
      have hi : (s + j) % n < n := Nat.mod_lt _ hnpos
      have hq : ((s + j) % n + 1) % n = (s + j + 1) % n := Nat.mod_add_mod _ _ _
      have ht : (s + j + 1) % n < n := Nat.mod_lt _ hnpos
      obtain ⟨hshape, hhead, hrow⟩ := href _ hi
      rw [hq] at hhead hrow
      obtain ⟨hnum, herr⟩ := reference_not_number_or_error (nm ((s + j) % n))
      obtain ⟨tc0, tc, hc0, htc, hval, hty⟩ :=
        cycle_target cells n p nm hinj hcell href s hs _ ht (cycleVisited p n s j)
      have herrv : isDataError tc.getValue = false := by
        rw [hval]; exact (reference_not_number_or_error _).2
      have hmem : p ((s + j + 1) % n) ∉ cycleVisited p n s j := by
        rw [cycleVisited_mem]
        rintro ⟨i0, hi0, heq⟩
        have h1 := hinj _ _ ht (Nat.mod_lt _ hnpos) heq
        have h2 := mod_ne_of_lt n (s + 1) i0 j hi0 (by omega)
        apply h2
        rw [show s + 1 + j = s + j + 1 from by omega, show s + 1 + i0 = s + i0 + 1 from by omega]
        exact h1
      have hstep := refStep_reference cells (p s)
        { ExpressionCell.create ('=' :: nm s) CellType.REFERANCE (p s) with
          m_refBackup := cycleVisited p n s j }
        ((nm ((s + j) % n)).map Char.toUpper) [] _ _ tc0 tc
        (cellReferance_upper _ hshape).1 hhead hrow hc0 htc herrv hty
      rw [if_neg hmem, hval] at hstep
      have hrec := ih (j + 1) (by omega) f (by omega)
      rw [referanceExpressionTokenize,
        referanceExpressionTokenizeBody_loop _ _ _ _ _ _ _ _ hnum herr
          (tokenize_reference _ _ hshape rfl),
        refLoop_call _ _ _ _ _ _ _ _ _ _ hstep]
      simp only []
      have hrec1 : referanceExpressionTokenize f (p s) cells
          { ExpressionCell.create ('=' :: nm s) CellType.REFERANCE (p s) with
            m_refBackup := p ((s + j + 1) % n) :: cycleVisited p n s j }
          ('=' :: nm ((s + j + 1) % n))
          = Res.ok (cells,
            { ExpressionCell.create ('=' :: nm s) CellType.REFERANCE (p s) with
              m_value := errorReferenceCycling
              m_isCalculated := true
              m_refBackup := [] },
            (nm ((s + j + 1) % n)).map Char.toUpper, [errorReferenceCycling]) := hrec
      rw [hrec1]
      rfl

/-- C3: in a spreadsheet holding freshly created cells `c0 .. c(n-1)` at
distinct places (n at least 1), where the formula of `ci` is `=` followed by
a single reference to `c((i+1) mod n)`, `calculate` on any `ci` returns as
soon as the recursion budget is at least `n + 1` and leaves `#CIRCULAR_REF`
as the value of `ci`. -/
theorem calculate_cycle (cells : mSpreadsheet) (n : Nat) (p : Nat → Char × Nat)
    (nm : Nat → Str)
    (hn : 1 ≤ n)
    (hinj : ∀ i j, i < n → j < n → p i = p j → i = j)
    (hcell : ∀ i, i < n → getCell cells (p i).1 (p i).2 = createCell ('=' :: nm i) (p i))
    (href : ∀ i, i < n → RefersTo (nm i) (p ((i + 1) % n)))
    (i : Nat) (hi : i < n) (fuel : Nat) (hfuel : n + 1 ≤ fuel) :
    ∃ cells1, Cell.calculate fuel cells (p i).1 (p i).2 = Res.ok cells1
      ∧ getValue cells1 (p i).1 (p i).2 = some "#CIRCULAR_REF".toList := by
  have hc := hcell i hi
  rw [createCell_reference (nm i) (p i) (href i hi).1] at hc
  have hres := cycle_resolve cells n p nm hn hinj hcell href i hi n 0 (by omega) fuel hfuel
  rw [show (i + 0) % n = i from Nat.mod_eq_of_lt hi] at hres
  have hres1 : referanceExpressionTokenize fuel (p i) cells
      (ExpressionCell.create ('=' :: nm i) CellType.REFERANCE (p i))
      (ExpressionCell.create ('=' :: nm i) CellType.REFERANCE (p i)).m_data
      = Res.ok (cells,
          { ExpressionCell.create ('=' :: nm i) CellType.REFERANCE (p i) with
            m_value := errorReferenceCycling
            m_isCalculated := true
            m_refBackup := [] },
          (nm i).map Char.toUpper, [errorReferenceCycling]) := hres
  have hty : (ExpressionCell.create ('=' :: nm i) CellType.REFERANCE (p i)).m_type
      ≠ CellType.EXPRESSION := by
    simp [ExpressionCell.create]
  refine ⟨setCell cells (p i).1 (p i).2 (Cell.expression
      { ExpressionCell.create ('=' :: nm i) CellType.REFERANCE (p i) with
        m_value := errorReferenceCycling
        m_data := (nm i).map Char.toUpper
        m_isCalculated := true
        m_refBackup := [] }), ?_, ?_⟩
  · simp only [Cell.calculate, hc, ExpressionCell.calculate, hty, ne_eq, not_false_eq_true,
      if_true, hres1, finishCalculate]
  · unfold getValue
    rw [getCell_setCell_same cells _ _ _ _ hc]
    rfl

theorem calculate_cycle_witness :
    buildSheet 'A' [["=B1".toList], ["=A1".toList]] = some pairSheet
      ∧ (∃ cells1, Cell.calculate 3 pairSheet 'A' 1 = Res.ok cells1
          ∧ getValue cells1 'A' 1 = some "#CIRCULAR_REF".toList)
      ∧ (∃ cells1, Cell.calculate 3 pairSheet 'B' 1 = Res.ok cells1
          ∧ getValue cells1 'B' 1 = some "#CIRCULAR_REF".toList) := by
  have hinj : ∀ i j, i < 2 → j < 2 → pairPlace i = pairPlace j → i = j := by
    intro i j hi hj
    interval_cases i <;> interval_cases j <;> decide
  have hcell : ∀ i, i < 2 →
      getCell pairSheet (pairPlace i).1 (pairPlace i).2
        = createCell ('=' :: pairName i) (pairPlace i) := by
    intro i hi
    interval_cases i <;> decide
  have href : ∀ i, i < 2 → RefersTo (pairName i) (pairPlace ((i + 1) % 2)) := by
    intro i hi
    unfold RefersTo
    interval_cases i <;> decide
  exact ⟨by decide,
    calculate_cycle pairSheet 2 pairPlace pairName (by decide) hinj hcell href 0 (by decide) 3
      (by decide),
    calculate_cycle pairSheet 2 pairPlace pairName (by decide) hinj hcell href 1 (by decide) 3
      (by decide)⟩

theorem loopSheet_inner (call : mSpreadsheet → ExpressionCell → Str →
      Res (mSpreadsheet × ExpressionCell × List Str)) (refBackup : List (Char × Nat)) :
    referanceExpressionTokenizeBody call ('A', 1) loopSheet (loopCell refBackup) "=C1".toList
      = Res.ok (loopSheet, loopCell [], "C1".toList, ["5".toList]) := by
  rfl

theorem loopSheet_body (call : mSpreadsheet → ExpressionCell → Str →
      Res (mSpreadsheet × ExpressionCell × List Str)) (refBackup : List (Char × Nat))
    (hrb : refBackup = [] ∨ refBackup = [('A', 1)])
    (hC : ∀ rb, call loopSheet (loopCell rb) "=C1".toList = Res.timeout
      ∨ call loopSheet (loopCell rb) "=C1".toList
          = Res.ok (loopSheet, loopCell [], ["5".toList]))
    (hA : call loopSheet (loopCell [('A', 1)]) "=B1+A1".toList = Res.timeout) :
    referanceExpressionTokenizeBody call ('A', 1) loopSheet (loopCell refBackup)
      "=B1+A1".toList = Res.timeout := by
  have hstepB : refStep loopSheet ('A', 1) (loopCell refBackup) "B1+A1".toList [] "B1".toList
      = RefStep.call (loopCell (('B', 1) :: refBackup)) "=C1".toList := by
    rcases hrb with h | h <;> (subst h; decide)
  have htok : simpleExpressionTokenize (loopCell refBackup) ("=B1+A1".toList.map Char.toUpper)
      = (loopCell refBackup, "B1+A1".toList, ["B1".toList, "+".toList, "A1".toList]) := by
    rcases hrb with h | h <;> (subst h; decide)
  rw [referanceExpressionTokenizeBody_loop call _ _ _ _ _ _ _ (by decide) (by decide) htok,
    refLoop_call call _ _ _ _ _ _ _ _ _ hstepB]
  rcases hC (('B', 1) :: refBackup) with h | h
  · rw [h]
  · rw [h]
    simp only []
    rw [refLoop_next call ('A', 1) "B1+A1".toList "+".toList ["A1".toList] loopSheet loopSheet
        (loopCell []) (loopCell []) ["5".toList] ["5".toList, "+".toList] (by decide),
      refLoop_call call ('A', 1) "B1+A1".toList "A1".toList [] loopSheet (loopCell [])
        (loopCell [('A', 1)]) ["5".toList, "+".toList] "=B1+A1".toList (by decide),
      hA]

theorem loopSheet_sub (fuel : Nat) (rb : List (Char × Nat)) :
    dropData (referanceExpressionTokenize fuel ('A', 1) loopSheet (loopCell rb) "=C1".toList)
        = Res.timeout
      ∨ dropData (referanceExpressionTokenize fuel ('A', 1) loopSheet (loopCell rb) "=C1".toList)
        = Res.ok (loopSheet, loopCell [], ["5".toList]) := by
  cases fuel with
  | zero => exact Or.inl rfl
  | succ n =>
      right
      rw [referanceExpressionTokenize, loopSheet_inner]
      rfl

theorem loopSheet_nested (fuel : Nat) :
    referanceExpressionTokenize fuel ('A', 1) loopSheet (loopCell [('A', 1)]) "=B1+A1".toList
      = Res.timeout := by
  induction fuel with
  | zero => rfl
  | succ n ih =>
      rw [referanceExpressionTokenize]
      apply loopSheet_body _ _ (Or.inr rfl) (fun rb => loopSheet_sub n rb)
      simp only [ih, dropData]

theorem loopSheet_top (fuel : Nat) :
    referanceExpressionTokenize fuel ('A', 1) loopSheet (loopCell []) "=B1+A1".toList
      = Res.timeout := by
  cases fuel with
  | zero => rfl
  | succ n =>
      rw [referanceExpressionTokenize]
      apply loopSheet_body _ _ (Or.inl rfl) (fun rb => loopSheet_sub n rb)
      simp only [loopSheet_nested n, dropData]

/-- C2, the code at the failing input: the sheet with the single row
`=B1+A1 | =C1 | 5` is what the reader builds from these strings, and
`calculate` on its cell A1 exhausts every recursion budget: the visited-set
is emptied when the nested resolution of B1 returns, so the reference of A1 to
itself is never found in it. -/
theorem calculate_loopSheet_never_returns :
    buildSheet 'A' [["=B1+A1".toList], ["=C1".toList], ["5".toList]] = some loopSheet
      ∧ ∀ fuel, Cell.calculate fuel loopSheet 'A' 1 = Res.timeout := by
  refine ⟨by decide, fun fuel => ?_⟩
  have hget : getCell loopSheet 'A' 1 = some (Cell.expression (loopCell [])) := by decide
  have hty : (loopCell []).m_type ≠ CellType.EXPRESSION := by decide
  have hdata : (loopCell []).m_data = "=B1+A1".toList := rfl
  simp only [Cell.calculate, hget, ExpressionCell.calculate, hty, ne_eq, not_false_eq_true,
    if_true, hdata, loopSheet_top fuel]

/-- C4, the code at two failing inputs. A Text cell holding the marked text
`hello` has the value `hello` after one `calculate` and `#UNKNOWN_FORMAT`
after two. In the sheet `hello | (marked) x | =A1+B1`, after every cell was
calculated once the cell C1 holds `#UNKNOWN_FORMAT`, and a second `calculate`
on C1 changes its value to `#TEXT?`. -/
theorem calculate_twice_differs :
    (∃ g0 g1 g2, buildSheet 'A' [[markedHello]] = some g0
      ∧ Cell.calculate 1 g0 'A' 1 = Res.ok g1 ∧ Cell.calculate 1 g1 'A' 1 = Res.ok g2
      ∧ getValue g1 'A' 1 = some "hello".toList
      ∧ getValue g2 'A' 1 = some "#UNKNOWN_FORMAT".toList)
    ∧ (∃ g0 g1 g2,
        buildSheet 'A' [["hello".toList], [[Char.ofNat 39, 'x']], ["=A1+B1".toList]] = some g0
      ∧ SpreadsheetCalculator.calculate 2 g0 = Res.ok g1 ∧ Cell.calculate 2 g1 'C' 1 = Res.ok g2
      ∧ getValue g1 'C' 1 = some "#UNKNOWN_FORMAT".toList
      ∧ getValue g2 'C' 1 = some "#TEXT?".toList) :=
  ⟨⟨_, _, _, rfl, rfl, rfl, rfl, rfl⟩, ⟨_, _, _, rfl, rfl, rfl, rfl, rfl⟩⟩

/-- C5, the code at the failing input: in the sheet `5 | =A1 | =1+B1` the
tokens `referanceExpressionTokenize` returns for C1 are the single token `5`
(the tokens `1` and `+` collected before the reference to B1 are overwritten
by the result of the nested call), and C1 evaluates to `5`, both on the fresh
sheet and after A1 and B1 were calculated. -/
theorem resolve_drops_earlier_tokens :
    ∃ g0 c1, buildSheet 'A' [["5".toList], ["=A1".toList], ["=1+B1".toList]] = some g0
      ∧ getCell g0 'C' 1 = some (Cell.expression c1)
      ∧ (∃ g this data,
          referanceExpressionTokenize 2 ('C', 1) g0 c1 c1.m_data
            = Res.ok (g, this, data, ["5".toList]))
      ∧ (∃ g1, Cell.calculate 2 g0 'C' 1 = Res.ok g1 ∧ getValue g1 'C' 1 = some "5".toList)
      ∧ (∃ g1, SpreadsheetCalculator.calculate 2 g0 = Res.ok g1
          ∧ getValue g1 'A' 1 = some "5".toList ∧ getValue g1 'B' 1 = some "5".toList
          ∧ getValue g1 'C' 1 = some "5".toList) :=
  ⟨_, _, rfl, rfl, ⟨_, _, _, rfl⟩, ⟨_, rfl, rfl⟩, ⟨_, rfl, rfl, rfl, rfl⟩⟩

/-- C6, the code at two failing inputs. In the sheet `=B1 | 007` the driver
calculates A1 first, which copies the not yet normalised text of B1: at the
end A1 holds `007` and B1 holds `7`. In the sheet `- | =A1` the Number cell
A1 keeps the value `-`, and calculating B1 applies the operator `-` to an
empty value stack. -/
theorem reference_to_number_differs :
    (∃ g0 g1, buildSheet 'A' [["=B1".toList], ["007".toList]] = some g0
      ∧ getCellType "007".toList = some CellType.NUMBER
      ∧ SpreadsheetCalculator.calculate 2 g0 = Res.ok g1
      ∧ getValue g1 'A' 1 = some "007".toList ∧ getValue g1 'B' 1 = some "7".toList)
    ∧ (∃ g0, buildSheet 'A' [["-".toList], ["=A1".toList]] = some g0
      ∧ getCellType "-".toList = some CellType.NUMBER
      ∧ SpreadsheetCalculator.calculate 2 g0 = Res.fault) :=
  ⟨⟨_, _, rfl, rfl, rfl, rfl, rfl⟩, ⟨_, rfl, rfl, rfl⟩⟩

/-! ## Number and Text cells, unary operators, unchecked operands -/

theorem dropWhile_zero_split (s : Str) :
    ∃ k, s = List.replicate k '0' ++ s.dropWhile (fun c => c == '0') := by
  induction s with
  | nil => exact ⟨0, rfl⟩
  | cons a s ih =>
      by_cases ha : a = '0'
      · subst ha
        obtain ⟨k, hk⟩ := ih
        refine ⟨k + 1, ?_⟩
        rw [List.dropWhile_cons]
        simp only [beq_self_eq_true, if_true, List.replicate_succ, List.cons_append]
        rw [← hk]
      · refine ⟨0, ?_⟩
        have hb : (a == '0') = false := beq_eq_false_iff_ne.mpr ha
        rw [List.dropWhile_cons, hb]
        rfl

theorem dropWhile_zero_head (s : Str) :
    (s.dropWhile (fun c => c == '0')).head? ≠ some '0' := by
  induction s with
  | nil => simp
  | cons a s ih =>
      by_cases ha : a = '0'
      · subst ha
        rw [List.dropWhile_cons]
        simpa using ih
      · have hb : (a == '0') = false := beq_eq_false_iff_ne.mpr ha
        rw [List.dropWhile_cons, hb]
        simpa using ha

/-- C17: for a Number-classified raw string `s`, `createCell` builds a Number
cell holding `s`, and `NumberCell::calculate` leaves `s` with exactly its
leading run of `0` characters removed: `s` is some number of `0` followed by
the new value, and the new value does not start with `0`. `007` becomes `7`
and `-007` stays `-007`. -/
theorem numberCell_calculate_strips_zeros (s : Str) (pos : Char × Nat)
    (h : getCellType s = some CellType.NUMBER) :
    createCell s pos = some (Cell.number s)
    ∧ (∃ k, s = List.replicate k '0' ++ NumberCell.calculate s)
    ∧ (NumberCell.calculate s).head? ≠ some '0'
    ∧ NumberCell.calculate "007".toList = "7".toList
    ∧ NumberCell.calculate "-007".toList = "-007".toList := by
  refine ⟨?_, dropWhile_zero_split s, dropWhile_zero_head s, by decide, by decide⟩
  simp only [createCell, h]

theorem numberCell_calculate_strips_zeros_witness :
    createCell "0042".toList ('A', 1) = some (Cell.number "0042".toList)
    ∧ (∃ k, "0042".toList = List.replicate k '0' ++ NumberCell.calculate "0042".toList)
    ∧ (NumberCell.calculate "0042".toList).head? ≠ some '0'
    ∧ NumberCell.calculate "007".toList = "7".toList
    ∧ NumberCell.calculate "-007".toList = "-007".toList :=
  numberCell_calculate_strips_zeros "0042".toList ('A', 1) (by decide)

/-- C18: for a Text-classified raw string `s`, `createCell` builds a Text cell
holding `s`, and one `TextCell::calculate` gives `s` without its first
character when `s` begins with the marker (the apostrophe, code 39) and
`#UNKNOWN_FORMAT` when it does not. The marked `hello` becomes `hello`, the
bare `hello` becomes `#UNKNOWN_FORMAT`. -/
theorem textCell_calculate_unwraps (s : Str) (pos : Char × Nat)
    (h : getCellType s = some CellType.TEXT) :
    createCell s pos = some (Cell.text s)
    ∧ ((s.head? = some (Char.ofNat 39) ∧ Char.ofNat 39 :: TextCell.calculate s = s)
        ∨ (s.head? ≠ some (Char.ofNat 39)
            ∧ TextCell.calculate s = "#UNKNOWN_FORMAT".toList))
    ∧ TextCell.calculate (Char.ofNat 39 :: "hello".toList) = "hello".toList
    ∧ TextCell.calculate "hello".toList = "#UNKNOWN_FORMAT".toList := by
  refine ⟨?_, ?_, by decide, by decide⟩
  · simp only [createCell, h]
  · cases s with
    | nil => exact Or.inr ⟨by simp, rfl⟩
    | cons c rest =>
        by_cases hc : c = Char.ofNat 39
        · subst hc
          left
          exact ⟨rfl, by simp [TextCell.calculate]⟩
        · right
          have hb : (c == Char.ofNat 39) = false := beq_eq_false_iff_ne.mpr hc
          refine ⟨by simpa using hc, ?_⟩
          simp only [TextCell.calculate, hb, Bool.false_eq_true, if_false]
          rfl

theorem textCell_calculate_unwraps_witness :
    createCell (Char.ofNat 39 :: "a b".toList) ('A', 1)
        = some (Cell.text (Char.ofNat 39 :: "a b".toList))
    ∧ (((Char.ofNat 39 :: "a b".toList).head? = some (Char.ofNat 39)
          ∧ Char.ofNat 39 :: TextCell.calculate (Char.ofNat 39 :: "a b".toList)
              = Char.ofNat 39 :: "a b".toList)
        ∨ ((Char.ofNat 39 :: "a b".toList).head? ≠ some (Char.ofNat 39)
            ∧ TextCell.calculate (Char.ofNat 39 :: "a b".toList)
                = "#UNKNOWN_FORMAT".toList))
    ∧ TextCell.calculate (Char.ofNat 39 :: "hello".toList) = "hello".toList
    ∧ TextCell.calculate "hello".toList = "#UNKNOWN_FORMAT".toList :=
  textCell_calculate_unwraps (Char.ofNat 39 :: "a b".toList) ('A', 1) (by decide)

theorem stoi_inIntRange (s : Str) (v : Int) (h : stoi s = some v) : inIntRange v = true := by
  simp only [stoi] at h
  split_ifs at h with h1 h2 h3
  all_goals (simp only [Option.some.injEq] at h; rw [← h]; assumption)

theorem inIntRange_neg (v : Int) (h : inIntRange v = true) (hmin : v ≠ INT_MIN) :
    inIntRange (-v) = true := by
  simp only [inIntRange, INT_MIN, INT_MAX, Bool.and_eq_true, decide_eq_true_eq] at h hmin ⊢
  omega

theorem unaryResult_eq (token : Str) (r : Int) :
    unaryResult token r = if token = ['-'] then -r else r := by
  unfold unaryResult
  by_cases h : token = ['-']
  · simp [h]
  · have hb : (token == ['-']) = false := beq_eq_false_iff_ne.mpr h
    simp [h, hb]

theorem evalStep_unary (token val2 : Str) (r : Int) (hop : isOperator token = true)
    (hr : stoi val2 = some r) (hmin : token = ['-'] → r ≠ INT_MIN) :
    evalStep token [val2] = Res.ok (some [intToString (if token = ['-'] then -r else r)]) := by
  have hrange : inIntRange (unaryResult token r) = true := by
    rw [unaryResult_eq]
    by_cases h : token = ['-']
    · rw [if_pos h]; exact inIntRange_neg r (stoi_inIntRange _ _ hr) (hmin h)
    · rw [if_neg h]; exact stoi_inIntRange _ _ hr
  simp only [evalStep, hop, Bool.not_true, Bool.false_eq_true, if_false, hr, hrange, if_true]
  rw [unaryResult_eq]

theorem calculate_unary (op : Char) (n : Str) (pos : Char × Nat) (hop : IsOp op)
    (hn : IsDigits n) (hrange : inIntRange (digitsValue n) = true) :
    calculateSimple (ExpressionCell.create ('=' :: op :: n) CellType.EXPRESSION pos)
      = Res.ok
          { m_value := intToString (if [op] = ['-'] then -(digitsValue n : Int)
              else (digitsValue n : Int))
            m_data := op :: n
            m_type := CellType.EXPRESSION
            m_isCalculated := true
            m_cellPosition := pos
            m_tokens := [n, [op]]
            m_refBackup := [] } := by
  have hoper := isOp_isOperator op hop
  obtain ⟨e1, e2, e3⟩ := digits_not_operator n hn
  have htok : tokenizeLoop true (op :: n) [] [] = TokenizeLoop.finished [[op]] n := by
    rw [tokenizeLoop]
    simp only [hoper, Bool.true_or, if_true, List.isEmpty_nil, Bool.not_true,
      Bool.false_eq_true, if_false, List.nil_append]
    have := tokenizeLoop_digits true n [] [[op]] [] hn.2
    rw [List.append_nil] at this
    rw [this]
    rfl
  have hlast : (!n.isEmpty && n != [' ']) = true := by
    obtain ⟨hl1, hl2⟩ := hn
    cases n with
    | nil => exact absurd rfl hl1
    | cons c r =>
        have hc := hl2 c (List.mem_cons_self _ _)
        have : c ≠ ' ' := by intro h; subst h; revert hc; decide
        simp [this]
  have hm : matchLoop [[op], n] [] [] = (true, [n, [op]]) := by
    rw [matchLoop_operator _ _ _ _ hoper]
    simp only [popOperators]
    rw [matchLoop_operand _ _ _ _ e1 e2 e3]
    simp only [matchLoop, List.nil_append]
    have := drainStack_all [[op]] [n] (by
      intro t ht
      rw [List.mem_singleton] at ht
      rw [ht]; exact hoper)
    simpa using this
  have hmin : [op] = ['-'] → (digitsValue n : Int) ≠ INT_MIN := by
    intro _
    simp only [INT_MIN]
    omega
  have he : evalLoop [n, [op]] []
      = Res.ok (some [intToString (if [op] = ['-'] then -(digitsValue n : Int)
          else (digitsValue n : Int))]) := by
    simp only [evalLoop]
    have h1 : evalStep n [] = Res.ok (some [n]) := by
      simp only [evalStep, e1, Bool.not_false, if_true]
    rw [h1]
    simp only []
    rw [evalStep_unary [op] n _ hoper (stoi_digits n hn hrange) hmin]
  simp only [calculateSimple, simpleExpressionTokenize, ExpressionCell.create,
    List.drop_succ_cons, List.drop_zero, beq_self_eq_true, htok, hlast, if_true,
    finishCalculate, Bool.false_eq_true, if_false, isMatchParentheses, List.singleton_append,
    hm, he]

/-- C19, as amended: when the evaluation pass applies an operator to a value stack that
holds only the right operand `r`, the operator is unary: `-` leaves the text
of `-r` on the stack (for `r` other than the least `int`, whose negation
overflows) and `+`, `*`, `/` leave the text of `r`, also `/` with `r = 0`.
For every non-empty digit string `n` within the `int` range, `=-n` evaluates
to the decimal text of `-n` and `=+n`, `=*n`, `=/n` to the decimal text of
`n`. -/
theorem unary_operator_result (token val2 : Str) (r : Int) (n : Str) (pos : Char × Nat)
    (hop : isOperator token = true) (hr : stoi val2 = some r)
    (hmin : token = ['-'] → r ≠ INT_MIN)
    (hn : IsDigits n) (hrange : inIntRange (digitsValue n) = true) :
    evalStep token [val2] = Res.ok (some [intToString (if token = ['-'] then -r else r)])
    ∧ evalStep ['/'] [['0']] = Res.ok (some [['0']])
    ∧ (∃ c, calculateSimple (ExpressionCell.create ('=' :: '-' :: n) CellType.EXPRESSION pos)
          = Res.ok c ∧ c.m_value = intToString (-(digitsValue n : Int)))
    ∧ (∃ c, calculateSimple (ExpressionCell.create ('=' :: '+' :: n) CellType.EXPRESSION pos)
          = Res.ok c ∧ c.m_value = intToString (digitsValue n : Int))
    ∧ (∃ c, calculateSimple (ExpressionCell.create ('=' :: '*' :: n) CellType.EXPRESSION pos)
          = Res.ok c ∧ c.m_value = intToString (digitsValue n : Int))
    ∧ (∃ c, calculateSimple (ExpressionCell.create ('=' :: '/' :: n) CellType.EXPRESSION pos)
          = Res.ok c ∧ c.m_value = intToString (digitsValue n : Int)) := by
  refine ⟨evalStep_unary token val2 r hop hr hmin, by decide, ?_, ?_, ?_, ?_⟩
  · exact ⟨_, calculate_unary '-' n pos (Or.inr (Or.inl rfl)) hn hrange, rfl⟩
  · exact ⟨_, calculate_unary '+' n pos (Or.inl rfl) hn hrange, rfl⟩
  · exact ⟨_, calculate_unary '*' n pos (Or.inr (Or.inr (Or.inl rfl))) hn hrange, rfl⟩
  · exact ⟨_, calculate_unary '/' n pos (Or.inr (Or.inr (Or.inr rfl))) hn hrange, rfl⟩

theorem unary_operator_result_witness :
    evalStep ['-'] ["-12".toList]
        = Res.ok (some [intToString (if (['-'] : Str) = ['-'] then -(-12) else -12)])
    ∧ evalStep ['/'] [['0']] = Res.ok (some [['0']])
    ∧ (∃ c, calculateSimple
            (ExpressionCell.create ('=' :: '-' :: "042".toList) CellType.EXPRESSION ('A', 1))
          = Res.ok c ∧ c.m_value = intToString (-(digitsValue "042".toList : Int)))
    ∧ (∃ c, calculateSimple
            (ExpressionCell.create ('=' :: '+' :: "042".toList) CellType.EXPRESSION ('A', 1))
          = Res.ok c ∧ c.m_value = intToString (digitsValue "042".toList : Int))
    ∧ (∃ c, calculateSimple
            (ExpressionCell.create ('=' :: '*' :: "042".toList) CellType.EXPRESSION ('A', 1))
          = Res.ok c ∧ c.m_value = intToString (digitsValue "042".toList : Int))
    ∧ (∃ c, calculateSimple
            (ExpressionCell.create ('=' :: '/' :: "042".toList) CellType.EXPRESSION ('A', 1))
          = Res.ok c ∧ c.m_value = intToString (digitsValue "042".toList : Int)) :=
  unary_operator_result ['-'] "-12".toList (-12) "042".toList ('A', 1) (by decide) (by decide)
    (by decide) (by unfold IsDigits; decide) (by decide)

/-- C19, counterexample: `=-(0-2147483647-1)` is classified Expression; its
evaluation pass computes the least `int` from the parenthesis and then
applies the leading `-` to a value stack that holds only that right operand.
The negation of the least `int` is not an `int`: the multiplication of
Cell.cpp:231 overflows, and the text of `2147483648` is not pushed. -/
theorem unary_minus_least_int :
    getCellType "=-(0-2147483647-1)".toList = some CellType.EXPRESSION
    ∧ evaluationTokens
          (ExpressionCell.create "=-(0-2147483647-1)".toList CellType.EXPRESSION ('A', 1))
        = some (["0".toList, "2147483647".toList, "-".toList, "1".toList, "-".toList]
            ++ ['-'] :: [])
    ∧ evalLoop ["0".toList, "2147483647".toList, "-".toList, "1".toList, "-".toList] []
        = Res.ok (some ["-2147483648".toList])
    ∧ stoi "-2147483648".toList = some INT_MIN
    ∧ inIntRange (-INT_MIN) = false
    ∧ evalStep ['-'] ["-2147483648".toList] = Res.fault
    ∧ evalStep ['-'] ["-2147483648".toList] ≠ Res.ok (some [intToString (-INT_MIN)])
    ∧ calculateSimple
          (ExpressionCell.create "=-(0-2147483647-1)".toList CellType.EXPRESSION ('A', 1))
        = Res.fault := by
  have hf : evalStep ['-'] ["-2147483648".toList] = Res.fault := rfl
  refine ⟨rfl, rfl, rfl, rfl, rfl, hf, ?_, rfl⟩
  rw [hf]
  exact fun h => Res.noConfusion h

/-- C11, the code at the failing input: `=1+2.5` is classified Expression and
its last operand `2.5` does not have the Number shape, yet the tokenizer
returns it (the test of Cell.cpp:343 is made only when an operator or a
parenthesis follows the operand) and `calculate` does the arithmetic: the
value is `3`. With the same operand in front, `=2.5+1`, the value is `#TEXT?`.
A lone unshaped operand, `=2.5`, becomes the value as it stands. -/
theorem calculate_last_operand_unchecked :
    getCellType "=1+2.5".toList = some CellType.EXPRESSION
    ∧ isDataNumber "2.5".toList = false
    ∧ (simpleExpressionTokenize
          (ExpressionCell.create "=1+2.5".toList CellType.EXPRESSION ('A', 1))
          "=1+2.5".toList).2.2 = ["1".toList, "+".toList, "2.5".toList]
    ∧ (∃ c, calculateSimple (ExpressionCell.create "=1+2.5".toList CellType.EXPRESSION ('A', 1))
          = Res.ok c ∧ c.m_value = "3".toList)
    ∧ (∃ c, calculateSimple (ExpressionCell.create "=2.5+1".toList CellType.EXPRESSION ('A', 1))
          = Res.ok c ∧ c.m_value = "#TEXT?".toList)
    ∧ (∃ c, calculateSimple (ExpressionCell.create "=2.5".toList CellType.EXPRESSION ('A', 1))
          = Res.ok c ∧ c.m_value = "2.5".toList) :=
  ⟨rfl, rfl, rfl, ⟨_, rfl, rfl⟩, ⟨_, rfl, rfl⟩, ⟨_, rfl, rfl⟩⟩

/-- C20, the code at two failing inputs. `=+` is classified Expression, no
operand is rejected and the parentheses match; the reordered token list is
the single operator `+`, which the evaluation pass applies to an empty value
stack (`top()` at Cell.cpp:214). `=()` is classified Expression and leaves
an empty token list, so the final `top()` of Cell.cpp:238 reads an empty
stack. Both runs are undefined behaviour. -/
theorem calculate_reads_empty_stack :
    (getCellType "=+".toList = some CellType.EXPRESSION
      ∧ evaluationTokens (ExpressionCell.create "=+".toList CellType.EXPRESSION ('A', 1))
          = some ["+".toList]
      ∧ evalStep "+".toList [] = Res.fault
      ∧ calculateSimple (ExpressionCell.create "=+".toList CellType.EXPRESSION ('A', 1))
          = Res.fault)
    ∧ (getCellType "=()".toList = some CellType.EXPRESSION
      ∧ evaluationTokens (ExpressionCell.create "=()".toList CellType.EXPRESSION ('A', 1))
          = some []
      ∧ evalLoop [] [] = Res.ok (some [])
      ∧ calculateSimple (ExpressionCell.create "=()".toList CellType.EXPRESSION ('A', 1))
          = Res.fault) :=
  ⟨⟨rfl, rfl, rfl, rfl⟩, ⟨rfl, rfl, rfl, rfl⟩⟩

/-- C16, the code at two failing inputs. A Text cell holding the marked text
`#TEXT?` has the value `#TEXT?` after one `calculate` and `#UNKNOWN_FORMAT`
after the next. In the sheet `=A1 | =A1+x`, after every cell was calculated
once the cell B1 holds `#CIRCULAR_REF` (adopted from A1), and one more
`calculate` on B1 changes its value to `#TEXT?`. -/
theorem sentinel_value_changes :
    (∃ g0 g1 g2, buildSheet 'A' [[Char.ofNat 39 :: "#TEXT?".toList]] = some g0
      ∧ Cell.calculate 1 g0 'A' 1 = Res.ok g1
      ∧ getValue g1 'A' 1 = some "#TEXT?".toList
      ∧ isDataError "#TEXT?".toList = true
      ∧ Cell.calculate 1 g1 'A' 1 = Res.ok g2
      ∧ getValue g2 'A' 1 = some "#UNKNOWN_FORMAT".toList)
    ∧ (∃ g0 g1 g2, buildSheet 'A' [["=A1".toList], ["=A1+x".toList]] = some g0
      ∧ SpreadsheetCalculator.calculate 3 g0 = Res.ok g1
      ∧ getValue g1 'B' 1 = some "#CIRCULAR_REF".toList
      ∧ isDataError "#CIRCULAR_REF".toList = true
      ∧ Cell.calculate 3 g1 'B' 1 = Res.ok g2
      ∧ getValue g2 'B' 1 = some "#TEXT?".toList) :=
  ⟨⟨_, _, _, rfl, rfl, rfl, rfl, rfl, rfl⟩, ⟨_, _, _, rfl, rfl, rfl, rfl, rfl, rfl⟩⟩

/-- C13, the code at the failing input: the sheet with the rows
`hello | =A1` and `=B1+B2 | (marked) x`. After A1 was calculated it holds
`#UNKNOWN_FORMAT`. Calculating A2 resolves B1 in a nested call, which reaches
the reference to A1, stores `#UNKNOWN_FORMAT` as the value of A2 and returns;
the loop of the outer call goes on with `+` and `B2`, a Text cell, and stores
`#TEXT?`: A2 ends with `#TEXT?`, not with the sentinel of A1. -/
theorem nested_sentinel_not_kept :
    ∃ g0 g1 g2 a2,
      buildSheet 'A' [["hello".toList, "=B1+B2".toList],
          ["=A1".toList, [Char.ofNat 39, 'x']]] = some g0
      ∧ Cell.calculate 3 g0 'A' 1 = Res.ok g1
      ∧ getValue g1 'A' 1 = some "#UNKNOWN_FORMAT".toList
      ∧ getCell g1 'A' 2 = some (Cell.expression a2)
      ∧ (∃ this1 data1 tokens,
          referanceExpressionTokenize 2 ('A', 2) g1 { a2 with m_refBackup := [('B', 1)] }
              "=A1".toList
            = Res.ok (g1, this1, data1, tokens)
          ∧ this1.m_value = "#UNKNOWN_FORMAT".toList)
      ∧ Cell.calculate 3 g1 'A' 2 = Res.ok g2
      ∧ getValue g2 'A' 2 = some "#TEXT?".toList :=
  ⟨_, _, _, _, rfl, rfl, rfl, rfl, ⟨_, _, _, rfl, rfl⟩, rfl, rfl⟩

/-! ## The tokens of a formula body -/

theorem plain_ne_space (str : Str) (h : ∀ c ∈ str, PlainChar c) : (str != [' ']) = true := by
  rw [bne_iff_ne]
  intro hs
  subst hs
  have := (h ' ' (List.mem_singleton.mpr rfl)).2.2
  revert this
  decide

theorem tokenizeLoop_spec (b : Bool) (data : List Char) (tokens : List Str) (str : Str)
    (toks1 : List Str) (str1 : Str) (hstr : ∀ c ∈ str, PlainChar c)
    (h : tokenizeLoop b data tokens str = TokenizeLoop.finished toks1 str1) :
    ∃ added, (if (!str1.isEmpty && str1 != [' ']) = true then toks1 ++ [str1] else toks1)
        = tokens ++ added
      ∧ added.flatten = str ++ data.filter (fun c => c != ' ')
      ∧ (∀ t ∈ added, isDelimiterToken t = true ∨ IsOperandToken t)
      ∧ List.Chain' DelimiterBetween added := by
  induction data generalizing tokens str with
  | nil =>
      simp only [tokenizeLoop, TokenizeLoop.finished.injEq] at h
      obtain ⟨h1, h2⟩ := h
      subst h1; subst h2
      cases str with
      | nil => exact ⟨[], by simp, by simp, by simp, List.chain'_nil⟩
      | cons c r =>
          refine ⟨[c :: r], ?_, by simp, ?_, List.chain'_singleton _⟩
          · rw [plain_ne_space _ hstr]
            simp
          · intro t ht
            rw [List.mem_singleton] at ht
            subst ht
            exact Or.inr ⟨by simp, hstr⟩
  | cons c data ih =>
      rw [tokenizeLoop] at h
      by_cases hd : (isOperator [c] || isParenthesis [c]) = true
      · have hcs : (c != ' ') = true := by
          rw [bne_iff_ne]
          intro hc; subst hc; revert hd; decide
        rw [if_pos hd] at h
        by_cases hemp : str.isEmpty = true
        · have hs : str = [] := List.isEmpty_iff.mp hemp
          subst hs
          simp only [List.isEmpty_nil, Bool.not_true, Bool.false_eq_true, if_false] at h
          obtain ⟨added, e1, e2, e3, e4⟩ := ih (tokens ++ [[c]]) [] (by simp) h
          refine ⟨[c] :: added, ?_, ?_, ?_, ?_⟩
          · rw [e1]; simp
          · rw [List.flatten_cons, e2, List.filter_cons, hcs]; simp
          · intro t ht
            rcases List.mem_cons.mp ht with ht | ht
            · left; rw [ht]; exact hd
            · exact e3 t ht
          · exact e4.cons' (fun y _ => Or.inl hd)
        · have hne : str.isEmpty = false := by simpa using hemp
          simp only [hne, Bool.not_false, if_true] at h
          split at h
          · cases h
          · obtain ⟨added, e1, e2, e3, e4⟩ := ih ((tokens ++ [str]) ++ [[c]]) [] (by simp) h
            refine ⟨str :: [c] :: added, ?_, ?_, ?_, ?_⟩
            · rw [e1]; simp
            · rw [List.flatten_cons, List.flatten_cons, e2, List.filter_cons, hcs]; simp
            · intro t ht
              rcases List.mem_cons.mp ht with ht | ht
              · right
                rw [ht]
                refine ⟨?_, hstr⟩
                intro hs; rw [hs] at hne; cases hne
              · rcases List.mem_cons.mp ht with ht | ht
                · left; rw [ht]; exact hd
                · exact e3 t ht
            · exact (e4.cons' (fun y _ => Or.inl hd)).cons' (fun y hy => by
                simp only [List.head?_cons, Option.mem_def, Option.some.injEq] at hy
                rw [← hy]; exact Or.inr hd)
      · have hd1 : (isOperator [c] || isParenthesis [c]) = false := by simpa using hd
        rw [if_neg hd] at h
        by_cases hsp : ([c] != [' ']) = true
        · rw [if_pos hsp] at h
          have hplain : PlainChar c := by
            rw [Bool.or_eq_false_iff] at hd1
            exact ⟨hd1.1, hd1.2, hsp⟩
          have hcs : (c != ' ') = true := by
            rw [bne_iff_ne] at hsp ⊢
            intro hc; apply hsp; rw [hc]
          obtain ⟨added, e1, e2, e3, e4⟩ := ih tokens (str ++ [c]) (by
            intro x hx
            rcases List.mem_append.mp hx with hx | hx
            · exact hstr x hx
            · rw [List.mem_singleton] at hx; rw [hx]; exact hplain) h
          refine ⟨added, e1, ?_, e3, e4⟩
          rw [e2, List.filter_cons, hcs]; simp
        · rw [if_neg hsp] at h
          have hcs : (c != ' ') = false := by
            have : ([c] != [' ']) = false := by simpa using hsp
            rw [← Bool.not_eq_true, bne_iff_ne, not_not] at this ⊢
            injection this
          obtain ⟨added, e1, e2, e3, e4⟩ := ih tokens str hstr h
          refine ⟨added, e1, ?_, e3, e4⟩
          rw [e2, List.filter_cons, hcs]; simp

/-- C12, as amended: when no operand is rejected, the tokens returned by
`simpleExpressionTokenize` are, in source order, the characters of the body
without its spaces (concatenating the tokens gives the body with the spaces
removed); every token is a single operator or parenthesis character or a
non-empty operand made of characters that are no operator, no parenthesis and
no space; and no two operand tokens are neighbours. So an operand token is a
maximal run of characters between operators and parentheses with its spaces
removed: a space produces no token and does not separate operands. -/
theorem simpleExpressionTokenize_tokens (this : ExpressionCell) (data : Str)
    (h : operandRejected this data = false) :
    (simpleExpressionTokenize this data).2.2.flatten
        = (data.drop 1).filter (fun c => c != ' ')
    ∧ (∀ t ∈ (simpleExpressionTokenize this data).2.2,
        isDelimiterToken t = true ∨ IsOperandToken t)
    ∧ List.Chain' DelimiterBetween (simpleExpressionTokenize this data).2.2 := by
  unfold operandRejected at h
  cases hloop : tokenizeLoop (this.m_type == CellType.EXPRESSION) (data.drop 1) [] [] with
  | rejected toks => rw [hloop] at h; cases h
  | finished toks str =>
      obtain ⟨added, e1, e2, e3, e4⟩ :=
        tokenizeLoop_spec _ _ [] [] toks str (by simp) hloop
      have hres : (simpleExpressionTokenize this data).2.2 = added := by
        simp only [simpleExpressionTokenize, hloop]
        rw [List.nil_append] at e1
        rw [← e1]
        split_ifs <;> rfl
      rw [hres]
      exact ⟨by simpa using e2, e3, e4⟩

theorem simpleExpressionTokenize_tokens_witness :
    (simpleExpressionTokenize
        (ExpressionCell.create "=(1 2+ab)*3".toList CellType.REFERANCE ('A', 1))
        "=(1 2+ab)*3".toList).2.2.flatten
        = ("=(1 2+ab)*3".toList.drop 1).filter (fun c => c != ' ')
    ∧ (∀ t ∈ (simpleExpressionTokenize
          (ExpressionCell.create "=(1 2+ab)*3".toList CellType.REFERANCE ('A', 1))
          "=(1 2+ab)*3".toList).2.2,
        isDelimiterToken t = true ∨ IsOperandToken t)
    ∧ List.Chain' DelimiterBetween (simpleExpressionTokenize
        (ExpressionCell.create "=(1 2+ab)*3".toList CellType.REFERANCE ('A', 1))
        "=(1 2+ab)*3".toList).2.2 :=
  simpleExpressionTokenize_tokens
    (ExpressionCell.create "=(1 2+ab)*3".toList CellType.REFERANCE ('A', 1))
    "=(1 2+ab)*3".toList (by decide)

/-- C12, counterexample: on the body `1 2` of the Expression formula `=1 2`
no operand is rejected and the tokenizer returns the single operand token
`12`: the characters `1` and `2`, which stand on either side of the space,
end up in the same operand token. -/
theorem simpleExpressionTokenize_joins_across_space :
    getCellType "=1 2".toList = some CellType.EXPRESSION
    ∧ "=1 2".toList.drop 1 = ['1'] ++ [' '] ++ ['2']
    ∧ operandRejected (ExpressionCell.create "=1 2".toList CellType.EXPRESSION ('A', 1))
        "=1 2".toList = false
    ∧ (simpleExpressionTokenize
        (ExpressionCell.create "=1 2".toList CellType.EXPRESSION ('A', 1))
        "=1 2".toList).2.2 = [['1', '2']]
    ∧ (simpleExpressionTokenize
        (ExpressionCell.create "=1 2".toList CellType.EXPRESSION ('A', 1))
        "=1 2".toList).2.2 ≠ [['1'], ['2']] := by
  decide

/-! ## Stopping at a token of the formula -/

theorem getElem?_set_isSome (column : List Cell) (i j : Nat) (c : Cell) :
    ((column.set i c)[j]?).isSome = (column[j]?).isSome := by
  rcases Nat.lt_or_ge j column.length with h | h
  · have h1 : j < (column.set i c).length := by simpa using h
    rw [List.getElem?_eq_getElem h1, List.getElem?_eq_getElem h]
    rfl
  · rw [List.getElem?_eq_none h, List.getElem?_eq_none (by simpa using h)]

theorem setCell_shape (cells : mSpreadsheet) (l : Char) (row : Nat) (c : Cell) :
    SameShape (setCell cells l row c) cells := by
  intro l1 row1
  induction cells with
  | nil => rfl
  | cons entry cells ih =>
      obtain ⟨k, column⟩ := entry
      rw [setCell_cons]
      by_cases hk1 : k = l1
      · subst hk1
        by_cases hkl : (k == l) = true
        · rw [if_pos hkl, getCell_cons_same, getCell_cons_same]
          by_cases hr : row1 = 0
          · simp [hr]
          · rw [if_neg hr, if_neg hr]
            exact getElem?_set_isSome column _ _ c
        · rw [if_neg hkl]
          rw [getCell_cons_same, getCell_cons_same]
      · have e1 : ∀ col, getCell ((k, col) :: setCell cells l row c) l1 row1
            = getCell (setCell cells l row c) l1 row1 :=
          fun col => getCell_cons_other k l1 col _ row1 hk1
        rw [getCell_cons_other k l1 column cells row1 hk1]
        split
        · rw [e1]; exact ih
        · rw [e1]; exact ih

theorem sameShape_refl (a : mSpreadsheet) : SameShape a a := fun _ _ => rfl

theorem sameShape_trans (a b c : mSpreadsheet) (h1 : SameShape a b) (h2 : SameShape b c) :
    SameShape a c := fun l row => (h1 l row).trans (h2 l row)

theorem refStepExpression_shape (cells : mSpreadsheet) (self : Char × Nat)
    (this : ExpressionCell) (res : List Str) (l : Char) (row : Nat) (tmp : Cell) :
    StepShape cells (refStepExpression cells self this res l row tmp) := by
  unfold refStepExpression
  repeat' split
  all_goals first
    | exact sameShape_refl _
    | exact setCell_shape _ _ _ _
    | trivial

theorem refStep_shape (cells : mSpreadsheet) (self : Char × Nat) (this : ExpressionCell)
    (data : Str) (res : List Str) (u : Str) :
    StepShape cells (refStep cells self this data res u) := by
  unfold refStep
  repeat' split
  all_goals first
    | exact refStepExpression_shape _ _ _ _ _ _ _
    | exact sameShape_refl _
    | trivial

theorem refLoop_shape (call : mSpreadsheet → ExpressionCell → Str →
      Res (mSpreadsheet × ExpressionCell × List Str))
    (hcall : ∀ c t s c1 t1 r1, call c t s = Res.ok (c1, t1, r1) → SameShape c1 c)
    (self : Char × Nat) (data : Str) (tokens : List Str) :
    ∀ cells this res c1 t1 r1,
      refLoop call self data tokens cells this res = Res.ok (c1, t1, r1) → SameShape c1 cells := by
  induction tokens with
  | nil =>
      intro cells this res c1 t1 r1 h
      simp only [refLoop, Res.ok.injEq, Prod.mk.injEq] at h
      rw [← h.1]; exact sameShape_refl _
  | cons u tokens ih =>
      intro cells this res c1 t1 r1 h
      rw [refLoop] at h
      have hshape := refStep_shape cells self this data res u
      cases hs : refStep cells self this data res u with
      | next c2 t2 r2 =>
          rw [hs] at h hshape
          exact sameShape_trans _ _ _ (ih _ _ _ _ _ _ h) hshape
      | stop c2 t2 r2 =>
          rw [hs] at h hshape
          simp only [Res.ok.injEq, Prod.mk.injEq] at h
          rw [← h.1]; exact hshape
      | ret t2 r2 =>
          rw [hs] at h
          simp only [Res.ok.injEq, Prod.mk.injEq] at h
          rw [← h.1]; exact sameShape_refl _
      | call t2 str =>
          rw [hs] at h
          simp only at h
          cases hc : call cells t2 str with
          | ok v =>
              obtain ⟨c3, t3, r3⟩ := v
              rw [hc] at h
              exact sameShape_trans _ _ _ (ih _ _ _ _ _ _ h) (hcall _ _ _ _ _ _ hc)
          | fault => rw [hc] at h; cases h
          | timeout => rw [hc] at h; cases h
      | fault => rw [hs] at h; cases h

theorem dropData_ok (x : Res (mSpreadsheet × ExpressionCell × Str × List Str))
    (c : mSpreadsheet) (t : ExpressionCell) (r : List Str) (h : dropData x = Res.ok (c, t, r)) :
    ∃ d, x = Res.ok (c, t, d, r) := by
  cases x with
  | ok v =>
      obtain ⟨c1, t1, d1, r1⟩ := v
      simp only [dropData, Res.ok.injEq, Prod.mk.injEq] at h
      obtain ⟨h1, h2, h3⟩ := h
      subst h1; subst h2; subst h3
      exact ⟨d1, rfl⟩
  | fault => cases h
  | timeout => cases h

theorem referanceExpressionTokenize_shape (fuel : Nat) (self : Char × Nat) :
    ∀ cells this data c1 t1 d1 r1,
      referanceExpressionTokenize fuel self cells this data = Res.ok (c1, t1, d1, r1)
        → SameShape c1 cells := by
  induction fuel with
  | zero =>
      intro cells this data c1 t1 d1 r1 h
      cases h
  | succ n ih =>
      intro cells this data c1 t1 d1 r1 h
      rw [referanceExpressionTokenize, referanceExpressionTokenizeBody] at h
      split_ifs at h
      · simp only [Res.ok.injEq, Prod.mk.injEq] at h
        rw [← h.1]; exact sameShape_refl _
      · simp only [Res.ok.injEq, Prod.mk.injEq] at h
        rw [← h.1]; exact sameShape_refl _
      · rcases hst : simpleExpressionTokenize this (data.map Char.toUpper)
          with ⟨this1, data1, tokens⟩
        rw [hst] at h
        simp only at h
        cases hl : refLoop
            (fun cells1 this1 str =>
              dropData (referanceExpressionTokenize n self cells1 this1 str))
            self data1 tokens cells this1 [] with
        | ok v =>
            obtain ⟨c2, t2, r2⟩ := v
            rw [hl] at h
            simp only [Res.ok.injEq, Prod.mk.injEq] at h
            rw [← h.1]
            refine refLoop_shape _ ?_ self data1 tokens _ _ _ _ _ _ hl
            intro c t s c3 t3 r3 hc
            obtain ⟨d, hd⟩ := dropData_ok _ _ _ _ hc
            exact ih _ _ _ _ _ _ _ hd
        | fault => rw [hl] at h; cases h
        | timeout => rw [hl] at h; cases h

theorem nestedCall_shape (fuel : Nat) (self : Char × Nat) :
    ∀ c t s c1 t1 r1, nestedCall fuel self c t s = Res.ok (c1, t1, r1) → SameShape c1 c := by
  intro c t s c1 t1 r1 h
  obtain ⟨d, hd⟩ := dropData_ok _ _ _ _ h
  exact referanceExpressionTokenize_shape fuel self _ _ _ _ _ _ _ hd

theorem refAdvance_shape (call : mSpreadsheet → ExpressionCell → Str →
      Res (mSpreadsheet × ExpressionCell × List Str))
    (hcall : ∀ c t s c1 t1 r1, call c t s = Res.ok (c1, t1, r1) → SameShape c1 c)
    (self : Char × Nat) (data : Str) (front : List Str) :
    ∀ cells this res c1 t1 r1,
      refAdvance call self data front cells this res = some (c1, t1, r1)
        → SameShape c1 cells := by
  induction front with
  | nil =>
      intro cells this res c1 t1 r1 h
      simp only [refAdvance, Option.some.injEq, Prod.mk.injEq] at h
      rw [← h.1]; exact sameShape_refl _
  | cons u front ih =>
      intro cells this res c1 t1 r1 h
      rw [refAdvance] at h
      have hshape := refStep_shape cells self this data res u
      cases hs : refStep cells self this data res u with
      | next c2 t2 r2 =>
          rw [hs] at h hshape
          exact sameShape_trans _ _ _ (ih _ _ _ _ _ _ h) hshape
      | stop c2 t2 r2 => rw [hs] at h; cases h
      | ret t2 r2 => rw [hs] at h; cases h
      | call t2 str =>
          rw [hs] at h
          simp only at h
          cases hc : call cells t2 str with
          | ok v =>
              obtain ⟨c3, t3, r3⟩ := v
              rw [hc] at h
              exact sameShape_trans _ _ _ (ih _ _ _ _ _ _ h) (hcall _ _ _ _ _ _ hc)
          | fault => rw [hc] at h; cases h
          | timeout => rw [hc] at h; cases h
      | fault => rw [hs] at h; cases h

theorem refLoop_advance (call : mSpreadsheet → ExpressionCell → Str →
      Res (mSpreadsheet × ExpressionCell × List Str))
    (self : Char × Nat) (data : Str) (front rest : List Str) :
    ∀ cells this res c1 t1 r1,
      refAdvance call self data front cells this res = some (c1, t1, r1)
        → refLoop call self data (front ++ rest) cells this res
            = refLoop call self data rest c1 t1 r1 := by
  induction front with
  | nil =>
      intro cells this res c1 t1 r1 h
      simp only [refAdvance, Option.some.injEq, Prod.mk.injEq] at h
      obtain ⟨h1, h2, h3⟩ := h
      subst h1; subst h2; subst h3
      rfl
  | cons u front ih =>
      intro cells this res c1 t1 r1 h
      rw [refAdvance] at h
      rw [List.cons_append, refLoop]
      cases hs : refStep cells self this data res u with
      | next c2 t2 r2 =>
          rw [hs] at h
          exact ih _ _ _ _ _ _ h
      | stop c2 t2 r2 => rw [hs] at h; cases h
      | ret t2 r2 => rw [hs] at h; cases h
      | call t2 str =>
          rw [hs] at h
          simp only at h ⊢
          cases hc : call cells t2 str with
          | ok v =>
              obtain ⟨c3, t3, r3⟩ := v
              rw [hc] at h
              exact ih _ _ _ _ _ _ h
          | fault => rw [hc] at h; cases h
          | timeout => rw [hc] at h; cases h
      | fault => rw [hs] at h; cases h

theorem getCellType_reference_cons (raw : Str)
    (h : getCellType raw = some CellType.REFERANCE) : ∃ body, raw = '=' :: body := by
  cases raw with
  | nil =>
      have h0 : getCellType [] = some CellType.EMPTY := by decide
      rw [h0] at h
      cases h
  | cons c rest =>
      by_cases hc : c = '='
      · exact ⟨rest, by rw [hc]⟩
      · have h1 : isDataSimpleExpression (c :: rest) = false := by
          unfold isDataSimpleExpression
          split
          · rename_i heq; injection heq with e1 e2; exact absurd e1 hc
          · rfl
        have h2 : isDataReferanceExpression (c :: rest) = false := by
          unfold isDataReferanceExpression
          split
          · rename_i heq; injection heq with e1 e2; exact absurd e1 hc
          · rfl
        simp only [getCellType, h1, h2, Bool.false_eq_true, if_false] at h
        split_ifs at h <;> cases h

theorem tokenizeLoop_false_finished (data : List Char) :
    ∀ tokens str, ∃ t s, tokenizeLoop false data tokens str = TokenizeLoop.finished t s := by
  induction data with
  | nil => intro tokens str; exact ⟨tokens, str, rfl⟩
  | cons c data ih =>
      intro tokens str
      rw [tokenizeLoop]
      simp only [Bool.false_and, Bool.false_eq_true, if_false]
      split_ifs
      all_goals exact ih _ _

theorem simpleExpressionTokenize_reference (this : ExpressionCell) (data : Str)
    (hty : this.m_type = CellType.REFERANCE) :
    simpleExpressionTokenize this data
      = (this, data.drop 1, (simpleExpressionTokenize this data).2.2) := by
  have hb : (this.m_type == CellType.EXPRESSION) = false := by
    rw [hty]; decide
  obtain ⟨t, s, hts⟩ := tokenizeLoop_false_finished (data.drop 1) [] []
  simp only [simpleExpressionTokenize, hb, hts]
  split_ifs <;> rfl

theorem referanceExpressionTokenize_succ (fuel : Nat) (self : Char × Nat)
    (cells : mSpreadsheet) (this : ExpressionCell) (data : Str) :
    referanceExpressionTokenize (fuel + 1) self cells this data
      = referanceExpressionTokenizeBody (nestedCall fuel self) self cells this data := rfl

theorem calculate_of_stop (fuel : Nat) (cells : mSpreadsheet) (l : Char) (row : Nat)
    (raw u : Str) (cells1 : mSpreadsheet) (this1 : ExpressionCell) (res : List Str)
    (cells2 : mSpreadsheet) (this2 : ExpressionCell) (res2 : List Str)
    (hcell : getCell cells l row = createCell raw (l, row))
    (hty : getCellType raw = some CellType.REFERANCE)
    (hreach : ReachesToken fuel cells (l, row) raw u cells1 this1 res)
    (hstep : refStep cells1 (l, row) this1 ((raw.map Char.toUpper).drop 1) res u
      = RefStep.stop cells2 this2 res2)
    (hcalc : this2.m_isCalculated = true) :
    ∃ cells3, Cell.calculate (fuel + 1) cells l row = Res.ok cells3
      ∧ getValue cells3 l row = some this2.m_value := by
  obtain ⟨body, hraw⟩ := getCellType_reference_cons raw hty
  have hc : getCell cells l row
      = some (Cell.expression (ExpressionCell.create raw CellType.REFERANCE (l, row))) := by
    rw [hcell]
    simp only [createCell, hty]
  obtain ⟨front, back, htoks, hadv⟩ := hreach
  have htok3 := simpleExpressionTokenize_reference
    (ExpressionCell.create raw CellType.REFERANCE (l, row)) (raw.map Char.toUpper) rfl
  rw [htoks] at htok3
  obtain ⟨hnum, herr⟩ : isDataNumber raw = false ∧ isDataError raw = false := by
    rw [hraw]; exact reference_not_number_or_error body
  have hshape1 : SameShape cells1 cells :=
    refAdvance_shape _ (nestedCall_shape fuel (l, row)) _ _ _ _ _ _ _ _ _ hadv
  have hshape2 : SameShape cells2 cells1 := by
    have := refStep_shape cells1 (l, row) this1 ((raw.map Char.toUpper).drop 1) res u
    rw [hstep] at this
    exact this
  have hsome : (getCell cells2 l row).isSome = true := by
    rw [hshape2 l row, hshape1 l row, hc]
    rfl
  obtain ⟨c0, hc0⟩ := Option.isSome_iff_exists.mp hsome
  have hret : referanceExpressionTokenize (fuel + 1) (l, row) cells
      (ExpressionCell.create raw CellType.REFERANCE (l, row))
      (ExpressionCell.create raw CellType.REFERANCE (l, row)).m_data
      = Res.ok (cells2, { this2 with m_refBackup := [] }, (raw.map Char.toUpper).drop 1,
          res2) := by
    have hdata : (ExpressionCell.create raw CellType.REFERANCE (l, row)).m_data = raw := rfl
    rw [hdata, referanceExpressionTokenize_succ,
      referanceExpressionTokenizeBody_loop _ _ _ _ _ _ _ _ hnum herr htok3,
      refLoop_advance _ _ _ _ _ _ _ _ _ _ _ hadv, refLoop, hstep]
  have htype : (ExpressionCell.create raw CellType.REFERANCE (l, row)).m_type
      ≠ CellType.EXPRESSION := by
    simp [ExpressionCell.create]
  refine ⟨setCell cells2 l row (Cell.expression
      { this2 with m_refBackup := [], m_data := (raw.map Char.toUpper).drop 1 }), ?_, ?_⟩
  · simp only [Cell.calculate, hc, ExpressionCell.calculate, htype, ne_eq, not_false_eq_true,
      if_true, hret, finishCalculate, hcalc]
  · unfold getValue
    rw [getCell_setCell_same cells2 _ _ _ _ hc0]
    rfl

theorem refStep_text (cells : mSpreadsheet) (self : Char × Nat) (this : ExpressionCell)
    (data : Str) (res : List Str) (u : Str) (r : Nat) (v : Str)
    (hshape : isDataCellReferance u = true)
    (hrow : stoi (u.drop 1) = some (r : Int))
    (htarget : targetCell cells self this (u.headD (Char.ofNat 0)) r = some (Cell.text v)) :
    refStep cells self this data res u =
      if isDataError v = true then RefStep.stop cells (this.setError v) [data]
      else RefStep.stop cells (this.setError errorExpressionEvaluation)
        [errorExpressionEvaluation] := by
  have hcell : getCell cells (u.headD (Char.ofNat 0)) r = some (Cell.text v) := by
    unfold targetCell at htarget
    split_ifs at htarget
    · cases htarget
    · exact htarget
  obtain ⟨column, hl, hr, hget⟩ := getCell_some cells _ r _ hcell
  have hlt : r - 1 < column.length := by
    rcases Nat.lt_or_ge (r - 1) column.length with h1 | h1
    · exact h1
    · rw [List.getElem?_eq_none h1] at hget; cases hget
  have hbound : ¬ ((r : Int) < 0 ∨ (column.length : Int) < (r : Int)) := by
    omega
  have hnat : (r : Int).toNat = r := Int.toNat_ofNat _
  unfold refStep
  simp only [hshape, Bool.not_true, Bool.false_and, Bool.false_eq_true, if_false, hl, hrow,
    hbound, hnat, htarget, Cell.getValue, Cell.getType]
  split_ifs <;> simp_all

theorem cellReferance_row (u : Str) (h : isDataCellReferance u = true) :
    stoi (u.drop 1) = some (digitsValue (u.drop 1) : Int) := by
  obtain ⟨c, d, rest, rfl, _, hd1, hd2, hlen, hrest⟩ := cellReferance_shape u h
  have hdig : IsDigits (d :: rest) := by
    refine ⟨by simp, ?_⟩
    intro x hx
    rcases List.mem_cons.mp hx with hx | hx
    · rw [hx]
      simp only [Char.isDigit, Bool.and_eq_true, decide_eq_true_eq]
      constructor
      · show (48 : Nat) ≤ d.toNat
        omega
      · show d.toNat ≤ (57 : Nat)
        exact hd2
    · exact hrest x hx
  have hbound : digitsValue (d :: rest) ≤ 999 := by
    match rest, hlen, hrest with
    | [], _, _ =>
        simp only [digitsValue, List.foldl]
        omega
    | [a], _, hr =>
        have ha := isDigit_bounds a (hr a (List.mem_singleton.mpr rfl))
        simp only [digitsValue, List.foldl]
        omega
    | [a, b], _, hr =>
        have ha := isDigit_bounds a (hr a (List.mem_cons_self _ _))
        have hb := isDigit_bounds b (hr b (List.mem_cons_of_mem _ (List.mem_singleton.mpr rfl)))
        simp only [digitsValue, List.foldl]
        omega
    | _ :: _ :: _ :: _, hl, _ =>
        simp only [List.length_cons] at hl
        omega
  apply stoi_digits _ hdig
  simp only [inIntRange, INT_MIN, INT_MAX, Bool.and_eq_true, decide_eq_true_eq]
  omega

theorem cellReferance_not_literal (u : Str) (h : isDataCellReferance u = true) :
    isDataNumber u = false ∧ isOperator u = false ∧ isParenthesis u = false := by
  obtain ⟨c, d, rest, rfl, hc, _⟩ := cellReferance_shape u h
  have hge : 65 ≤ c.toNat := by
    rcases isAlpha_ge c hc with h1 | h1 <;> omega
  have hnd : c.isDigit = false := by
    rw [← Bool.not_eq_true]
    intro hd
    have := (isDigit_bounds c hd).2
    omega
  have n1 : c ≠ '-' := by intro hc; subst hc; revert hge; decide
  have n2 : c ≠ '+' := by intro hc; subst hc; revert hge; decide
  refine ⟨?_, by simp [isOperator], by simp [isParenthesis]⟩
  have hds : dropSign (c :: d :: rest) = c :: d :: rest := by
    unfold dropSign
    split
    · rename_i heq; injection heq with e1 _; exact absurd e1 n1
    · rename_i heq; injection heq with e1 _; exact absurd e1 n2
    · rfl
  simp [isDataNumber, hds, hnd]

theorem refStep_invalid (cells : mSpreadsheet) (self : Char × Nat) (this : ExpressionCell)
    (data : Str) (res : List Str) (u : Str) (h : InvalidToken cells u) :
    refStep cells self this data res u
      = RefStep.stop cells (this.setError errorExpressionEvaluation)
          [errorExpressionEvaluation] := by
  rcases h with ⟨hshape, hcol | ⟨column, hcol, hrow⟩⟩ | ⟨h1, h2, h3, h4⟩
  · obtain ⟨e1, e2, e3⟩ := cellReferance_not_literal u hshape
    unfold refStep
    simp only [hshape, Bool.not_true, Bool.false_and, Bool.false_eq_true, if_false, hcol, e1,
      e2, e3, Bool.or_self]
  · have hbound : ((digitsValue (u.drop 1) : Nat) : Int) < 0
        ∨ (column.length : Int) < ((digitsValue (u.drop 1) : Nat) : Int) := by
      omega
    unfold refStep
    simp only [hshape, Bool.not_true, Bool.false_and, Bool.false_eq_true, if_false, hcol,
      cellReferance_row u hshape, hbound, if_true]
  · unfold refStep
    simp only [h1, h2, h3, h4, Bool.not_false, Bool.and_self, if_true]

/-- C14, as amended: when the loop over the tokens of a fresh Reference cell
meets, with no earlier token having stopped it, an in-range reference to a
Text cell, `calculate` returns and the cell's value is `#TEXT?` if the
current value `v` of the Text cell is not one of the four sentinels, and `v`
itself if it is (a Text cell without marker that was already calculated
holds `#UNKNOWN_FORMAT`). -/
theorem calculate_reference_to_text (fuel : Nat) (cells : mSpreadsheet) (l : Char)
    (row : Nat) (raw u : Str) (cells1 : mSpreadsheet) (this1 : ExpressionCell)
    (res : List Str) (r : Nat) (v : Str)
    (hcell : getCell cells l row = createCell raw (l, row))
    (hty : getCellType raw = some CellType.REFERANCE)
    (hreach : ReachesToken fuel cells (l, row) raw u cells1 this1 res)
    (hshape : isDataCellReferance u = true)
    (hrow : stoi (u.drop 1) = some (r : Int))
    (htarget : targetCell cells1 (l, row) this1 (u.headD (Char.ofNat 0)) r
      = some (Cell.text v)) :
    ∃ cells2, Cell.calculate (fuel + 1) cells l row = Res.ok cells2
      ∧ getValue cells2 l row
          = some (if isDataError v = true then v else "#TEXT?".toList) := by
  have hstep := refStep_text cells1 (l, row) this1 ((raw.map Char.toUpper).drop 1) res u r v
    hshape hrow htarget
  by_cases hv : isDataError v = true
  · rw [if_pos hv] at hstep
    rw [if_pos hv]
    exact calculate_of_stop fuel cells l row raw u cells1 this1 res _ _ _ hcell hty hreach
      hstep rfl
  · rw [if_neg hv] at hstep
    rw [if_neg hv]
    exact calculate_of_stop fuel cells l row raw u cells1 this1 res _ _ _ hcell hty hreach
      hstep rfl

theorem calculate_reference_to_text_witness :
    ∃ cells2, Cell.calculate (1 + 1) textSheet 'B' 1 = Res.ok cells2
      ∧ getValue cells2 'B' 1
          = some (if isDataError "abc".toList = true then "abc".toList else "#TEXT?".toList) :=
  calculate_reference_to_text 1 textSheet 'B' 1 "=1+A1".toList "A1".toList textSheet
    (ExpressionCell.create "=1+A1".toList CellType.REFERANCE ('B', 1))
    ["1".toList, "+".toList] 1 "abc".toList (by decide) (by decide)
    ⟨["1".toList, "+".toList], [], by decide, by decide⟩ (by decide) (by decide) (by decide)

/-- C14, counterexample: in the sheet `hello | =A1` the cell A1 is classified
Text and B1 holds an in-range reference to it. Once A1 was calculated (it has
no marker, so it holds `#UNKNOWN_FORMAT`), calculating B1 yields
`#UNKNOWN_FORMAT` and not `#TEXT?`. -/
theorem reference_to_calculated_text :
    ∃ g0 g1 g2, buildSheet 'A' [["hello".toList], ["=A1".toList]] = some g0
      ∧ getCellType "hello".toList = some CellType.TEXT
      ∧ Cell.calculate 2 g0 'A' 1 = Res.ok g1
      ∧ Cell.calculate 2 g1 'B' 1 = Res.ok g2
      ∧ getValue g2 'B' 1 = some "#UNKNOWN_FORMAT".toList
      ∧ getValue g2 'B' 1 ≠ some "#TEXT?".toList :=
  ⟨_, _, _, rfl, rfl, rfl, rfl, rfl, by decide⟩

/-- C15, as amended: when the loop over the tokens of a fresh Reference cell
meets, with no earlier token having stopped it, a token of cell-reference
shape whose column is absent from the spreadsheet or whose row number exceeds
the column's row count, or a token that is neither an operator, a
parenthesis, a Number-shaped literal nor of cell-reference shape, `calculate`
returns (no column is indexed out of bounds) and the cell's value is
`#TEXT?`. -/
theorem calculate_invalid_token (fuel : Nat) (cells : mSpreadsheet) (l : Char)
    (row : Nat) (raw u : Str) (cells1 : mSpreadsheet) (this1 : ExpressionCell)
    (res : List Str)
    (hcell : getCell cells l row = createCell raw (l, row))
    (hty : getCellType raw = some CellType.REFERANCE)
    (hreach : ReachesToken fuel cells (l, row) raw u cells1 this1 res)
    (hbad : InvalidToken cells1 u) :
    ∃ cells2, Cell.calculate (fuel + 1) cells l row = Res.ok cells2
      ∧ getValue cells2 l row = some "#TEXT?".toList :=
  calculate_of_stop fuel cells l row raw u cells1 this1 res _ _ _ hcell hty hreach
    (refStep_invalid cells1 (l, row) this1 _ res u hbad) rfl

theorem calculate_invalid_token_witness :
    ∃ cells2, Cell.calculate (1 + 1) shortSheet 'B' 1 = Res.ok cells2
      ∧ getValue cells2 'B' 1 = some "#TEXT?".toList :=
  calculate_invalid_token 1 shortSheet 'B' 1 "=A1+A7".toList "A7".toList shortSheet
    (ExpressionCell.create "=A1+A7".toList CellType.REFERANCE ('B', 1))
    ["5".toList, "+".toList] (by decide) (by decide)
    ⟨["A1".toList, "+".toList], [], by decide, by decide⟩
    (Or.inl ⟨by decide, Or.inr ⟨[Cell.number "5".toList], by decide, by decide⟩⟩)

/-- C15, counterexample: in the sheet `hello | =A1+Z9` the formula of B1 holds
the token `Z9`, of cell-reference shape, whose column is absent. Once A1 was
calculated it holds `#UNKNOWN_FORMAT`; calculating B1 stops at the token `A1`
and the value of B1 is `#UNKNOWN_FORMAT`, not `#TEXT?`. -/
theorem invalid_token_not_reached :
    ∃ g0 g1 g2, buildSheet 'A' [["hello".toList], ["=A1+Z9".toList]] = some g0
      ∧ isDataCellReferance "Z9".toList = true
      ∧ g0.lookup 'Z' = none
      ∧ Cell.calculate 2 g0 'A' 1 = Res.ok g1
      ∧ Cell.calculate 2 g1 'B' 1 = Res.ok g2
      ∧ getValue g2 'B' 1 = some "#UNKNOWN_FORMAT".toList
      ∧ getValue g2 'B' 1 ≠ some "#TEXT?".toList :=
  ⟨_, _, _, rfl, rfl, rfl, rfl, rfl, rfl, by decide⟩


/-! ## Number cells made of zeros only (Cell.cpp:166-169) -/

theorem dropWhile_zero_all (s : Str) (hz : ∀ c ∈ s, c = '0') :
    s.dropWhile (fun c => c == '0') = [] := by
  rw [List.dropWhile_eq_nil_iff]
  intro c hc
  rw [hz c hc]
  rfl

theorem getCellType_zeros (s : Str) (hne : s ≠ []) (hz : ∀ c ∈ s, c = '0') :
    getCellType s = some CellType.NUMBER := by
  cases s with
  | nil => exact absurd rfl hne
  | cons c rest =>
      have hc : c = '0' := hz c (List.mem_cons_self _ _)
      have hp : ∀ x ∈ c :: rest, isprint x = true := by
        intro x hx
        rw [hz x hx]
        decide
      obtain ⟨t, ht, -, hnum, -⟩ :=
        getCellType_number_or_text c rest (by rw [hc]; decide) hp
      have hs : SignedDigits (c :: rest) := by
        refine ⟨[], c :: rest, rfl, Or.inl rfl, ?_⟩
        intro x hx
        rw [hz x hx]
        decide
      rw [ht, hnum.mpr ⟨hne, hs⟩]

/-- C21: a raw string `s` made of one or more characters `0` and nothing else
is classified Number, `createCell` builds a Number cell holding `s`, and
`NumberCell::calculate` leaves the empty string as the value: not `0`, and not
a non-empty digit string. In every sheet holding that Number cell, `calculate`
on it returns and `getValue` of the cell is then empty. A cell `=A1` next to
such a Number cell A1 that was calculated gets the empty string as well. -/
theorem numberCell_calculate_zero (s : Str) (pos : Char × Nat) (hne : s ≠ [])
    (hz : ∀ c ∈ s, c = '0') :
    getCellType s = some CellType.NUMBER
    ∧ createCell s pos = some (Cell.number s)
    ∧ NumberCell.calculate s = []
    ∧ NumberCell.calculate s ≠ "0".toList
    ∧ ¬ IsDigits (NumberCell.calculate s)
    ∧ (∀ (fuel : Nat) (cells : mSpreadsheet) (l : Char) (row : Nat),
        getCell cells l row = some (Cell.number s) →
        ∃ cells1, Cell.calculate fuel cells l row = Res.ok cells1
          ∧ getValue cells1 l row = some [])
    ∧ (∃ g0 g1 g2, buildSheet 'A' [[s], ["=A1".toList]] = some g0
        ∧ Cell.calculate 2 g0 'A' 1 = Res.ok g1
        ∧ Cell.calculate 2 g1 'B' 1 = Res.ok g2
        ∧ getValue g2 'A' 1 = some []
        ∧ getValue g2 'B' 1 = some []) := by
  have hty := getCellType_zeros s hne hz
  have hcalc : NumberCell.calculate s = [] := dropWhile_zero_all s hz
  have hcreate : createCell s ('A', 1) = some (Cell.number s) := by
    simp only [createCell, hty]
  refine ⟨hty, ?_, hcalc, ?_, ?_, ?_, ?_⟩
  · simp only [createCell, hty]
  · rw [hcalc]; decide
  · rw [hcalc]; exact fun h => h.1 rfl
  · intro fuel cells l row hcell
    refine ⟨setCell cells l row (Cell.number (NumberCell.calculate s)), ?_, ?_⟩
    · simp only [Cell.calculate, hcell]
    · rw [getValue, getCell_setCell_same cells l row _ _ hcell, hcalc]
      rfl
  · refine ⟨[('A', [Cell.number s]), ('B', [Cell.expression
        (ExpressionCell.create "=A1".toList CellType.REFERANCE ('B', 1))])],
      [('A', [Cell.number []]), ('B', [Cell.expression
        (ExpressionCell.create "=A1".toList CellType.REFERANCE ('B', 1))])], _, ?_, ?_,
      rfl, rfl, rfl⟩
    · simp only [buildSheet, buildColumn, hcreate]
      rfl
    · show Res.ok (setCell _ 'A' 1 (Cell.number (NumberCell.calculate s))) = _
      rw [hcalc]
      rfl

theorem numberCell_calculate_zero_witness :
    ("00".toList ≠ [] ∧ ∀ c ∈ "00".toList, c = '0')
    ∧ getCellType "00".toList = some CellType.NUMBER
    ∧ createCell "00".toList ('A', 1) = some (Cell.number "00".toList)
    ∧ NumberCell.calculate "00".toList = []
    ∧ NumberCell.calculate "00".toList ≠ "0".toList
    ∧ ¬ IsDigits (NumberCell.calculate "00".toList)
    ∧ (∀ (fuel : Nat) (cells : mSpreadsheet) (l : Char) (row : Nat),
        getCell cells l row = some (Cell.number "00".toList) →
        ∃ cells1, Cell.calculate fuel cells l row = Res.ok cells1
          ∧ getValue cells1 l row = some [])
    ∧ (∃ g0 g1 g2, buildSheet 'A' [["00".toList], ["=A1".toList]] = some g0
        ∧ Cell.calculate 2 g0 'A' 1 = Res.ok g1
        ∧ Cell.calculate 2 g1 'B' 1 = Res.ok g2
        ∧ getValue g2 'A' 1 = some []
        ∧ getValue g2 'B' 1 = some []) :=
  ⟨⟨by decide, by decide⟩,
    numberCell_calculate_zero "00".toList ('A', 1) (by decide) (by decide)⟩

/-- The empty value of a zero cell reaches the arithmetic of a referring
cell: in the sheet `0 | =A1+1`, once A1 was calculated, B1 resolves to the
tokens (empty), `+`, `1`, and the evaluation hands the empty string to
`std::stoi`, which throws. -/
theorem reference_to_zero_faults :
    ∃ g0 g1, buildSheet 'A' [["0".toList], ["=A1+1".toList]] = some g0
      ∧ Cell.calculate 2 g0 'A' 1 = Res.ok g1
      ∧ getValue g1 'A' 1 = some []
      ∧ Cell.calculate 2 g1 'B' 1 = Res.fault
      ∧ stoi [] = none
      ∧ SpreadsheetCalculator.calculate 2 g0 = Res.fault :=
  ⟨_, _, rfl, rfl, rfl, rfl, rfl, rfl⟩
end Spreadsheet
